import Mathlib

/-!
# Scion sync server — shallow embedding

A shallow embedding of the Scion vault-sync server (TypeScript sources:
`db.ts` — git-backed content store, `metadata.ts` — SQLite identity store,
`operations.ts` — the v2 operation engine, `server.ts` — the HTTP handlers,
`yjs-sync.ts` — the real-time commit path), together with proofs settling the
frozen claims about it.

Modelling conventions, fixed once here:

* One vault is modelled (all store functions in the source take `vaultName`
  and operate on per-vault state; cross-vault isolation is not at issue in
  any claim).
* File bytes (`Buffer`) are modelled as `String`.
* SHA-256 (`computeHash`) is modelled as an injective fingerprint of the
  bytes; the code only ever compares hashes for equality.
* Git commit hashes (40-hex strings) are modelled as distinct naturals drawn
  from a counter: every commit object the repository creates — including the
  one `git commit --amend` rewrites, whose tree and committer timestamp
  differ from the pre-amend commit — consumes a fresh identifier.
* UUIDs (`uuidv4`) are modelled as distinct naturals drawn from a counter.
* The git working directory (what `fs` reads and writes) is carried
  separately from the committed history, because the code reads files from
  disk (`getCurrentFile`) and writes `.scion/manifest.json` to disk without
  necessarily committing it.
* Timestamps (`Date.now()/1000`) enter each operation as an explicit `now`
  argument.
* `git merge-file` is an external subprocess: handlers are parameterised by
  the merge primitive (`MergeFn`); concrete instances are supplied in
  witnesses.
-/

namespace Scion

/-- File bytes. -/
abbrev Content := String

/-- A content fingerprint. -/
abbrev Hash := String

/-- A stable file identity (UUID in the source, modelled as a counter value). -/
abbrev FileId := Nat

/-- A commit identifier (40-hex git hash in the source, modelled as a counter
value). -/
abbrev CommitId := Nat

/-- `computeHash` (db.ts): SHA-256 of the bytes, modelled as an injective
fingerprint — the code only compares hashes for equality. -/
def computeHash (c : Content) : Hash := "sha256:" ++ c

/-- A committed tree: association list from tracked path to bytes. -/
abbrev Snapshot := List (String × Content)

/-- Association-list lookup (path → bytes). -/
def lookupA (s : Snapshot) (p : String) : Option Content :=
  match s.find? (fun e => e.1 == p) with
  | some e => some e.2
  | none => none

/-- Association-list update: bind `p` to `c` (entry order is not observed by
any modelled query — the real `git ls-files` sorts its output anyway). -/
def setA (s : Snapshot) (p : String) (c : Content) : Snapshot :=
  s.filter (fun e => e.1 != p) ++ [(p, c)]

/-- Association-list removal. -/
def eraseA (s : Snapshot) (p : String) : Snapshot :=
  s.filter (fun e => e.1 != p)

/-- Result of the three-way merge primitive (db.ts `MergeResult`). -/
structure MergeResult where
  merged : Content
  hasConflicts : Bool
deriving Repr, DecidableEq

/-- The `git merge-file` subprocess, abstracted: base, local, remote ↦ result.
The handlers under verification treat it as a black box. -/
abbrev MergeFn := Content → Content → Content → MergeResult

/-- A concrete merge instance used by witnesses and counterexamples: whole-file
granularity diff3 — identical sides merge cleanly, a one-sided change takes
that side, a two-sided change conflicts with the marker format `git
merge-file` emits. -/
def mergeFileModel : MergeFn := fun base lo re =>
  if lo = re then ⟨lo, false⟩
  else if base = lo then ⟨re, false⟩
  else if base = re then ⟨lo, false⟩
  else ⟨"<<<<<<< LOCAL\n" ++ lo ++ "\n=======\n" ++ re ++ "\n>>>>>>> REMOTE\n", true⟩

/-- The binding contract of the merge primitive that the claims rely on
(spec §4.1): byte-identical local and remote merge cleanly to that content. -/
def MergeSpec (m : MergeFn) : Prop :=
  ∀ base c, m base c c = ⟨c, false⟩

theorem mergeFileModel_spec : MergeSpec mergeFileModel := by
  intro base c
  simp [mergeFileModel]

/-- One commit of the linear vault history. -/
structure Commit where
  id : CommitId
  time : Nat
  snap : Snapshot
deriving Repr, DecidableEq

/-- An identity-store row (metadata.ts `FileMetadata`). -/
structure FileMeta where
  file_id : FileId
  current_path : String
  content_hash : Option Hash
  git_commit : Option CommitId
  created_at : Nat
  updated_at : Nat
  deleted_at : Option Nat
deriving Repr, DecidableEq

/-- A path-history row (metadata.ts `PathHistoryEntry`). -/
structure PathEntry where
  file_id : FileId
  old_path : String
  new_path : String
  changed_at : Nat
deriving Repr, DecidableEq

/-- The full per-vault server state: git working directory, committed
history, commit-id counter, identity rows, path history, UUID counter. -/
structure VaultState where
  workdir : Snapshot
  history : List Commit
  nextCommit : Nat
  files : List FileMeta
  pathHist : List PathEntry
  nextId : Nat
deriving Repr, DecidableEq

/-! ## Content store (db.ts) -/

/-- The `.gitignore` written on vault initialisation (init excludes the
SQLite store from history; `.scion/manifest.json` stays trackable). -/
def gitignoreContent : Content :=
  ".DS_Store\nThumbs.db\n.scion/metadata.db\n.scion/metadata.db-wal\n.scion/metadata.db-shm\n"

/-- `getHeadCommit`: the id of the newest commit, or none for an empty repo. -/
def getHeadCommit (st : VaultState) : Option CommitId :=
  (st.history.getLast?).map (·.id)

/-- The tree of the newest commit (empty for an empty repo). -/
def headSnap (st : VaultState) : Snapshot :=
  ((st.history.getLast?).map (·.snap)).getD []

/-- The tree at a given commit id, if the id names a commit of this vault. -/
def snapAt (st : VaultState) (c : CommitId) : Option Snapshot :=
  (st.history.find? (fun e => e.id == c)).map (·.snap)

/-- The commit time of a given commit id. -/
def timeOf (st : VaultState) (c : CommitId) : Option Nat :=
  (st.history.find? (fun e => e.id == c)).map (·.time)

/-- `initVaultGit`: if the repo does not exist yet, create it with a
`.gitignore` and the "Initialize vault" commit; otherwise a no-op. -/
def initVaultGit (st : VaultState) (now : Nat) : VaultState :=
  if st.history.isEmpty then
    { st with
      workdir := setA st.workdir ".gitignore" gitignoreContent
      history := [⟨st.nextCommit, now, [(".gitignore", gitignoreContent)]⟩]
      nextCommit := st.nextCommit + 1 }
  else st

/-- `commitFile`: write the bytes to the working directory, `git add` the
path and commit. When the staged content equals the content at HEAD, git
reports "nothing to commit" and the current head id is returned unchanged
(the caught-exception branch of the source). -/
def commitFile (st : VaultState) (now : Nat) (p : String) (c : Content) :
    CommitId × VaultState :=
  let st := initVaultGit st now
  let wd := setA st.workdir p c
  if lookupA (headSnap st) p = some c then
    ((getHeadCommit st).getD 0, { st with workdir := wd })
  else
    (st.nextCommit,
      { st with
        workdir := wd
        history := st.history ++ [⟨st.nextCommit, now, setA (headSnap st) p c⟩]
        nextCommit := st.nextCommit + 1 })

/-- `getFileAtCommit`: the bytes of a path at a historical commit (`git
show commit:path`), none when the commit is unknown or lacks the path. -/
def getFileAtCommit (st : VaultState) (p : String) (c : CommitId) : Option Content :=
  (snapAt st c).bind (fun s => lookupA s p)

/-- `getCurrentFile`: read the path from the working directory. -/
def getCurrentFile (st : VaultState) (p : String) : Option Content :=
  lookupA st.workdir p

/-- `deleteFile`: false when the path is not on disk; otherwise remove it,
stage and commit the deletion — the commit is swallowed when the path was
not tracked (the caught branch of the source). -/
def deleteFile (st : VaultState) (now : Nat) (p : String) : Bool × VaultState :=
  match lookupA st.workdir p with
  | none => (false, st)
  | some _ =>
    let wd := eraseA st.workdir p
    if lookupA (headSnap st) p = none then
      (true, { st with workdir := wd })
    else
      (true,
        { st with
          workdir := wd
          history := st.history ++ [⟨st.nextCommit, now, eraseA (headSnap st) p⟩]
          nextCommit := st.nextCommit + 1 })

/-- `git ls-files`: the tracked paths (the index coincides with HEAD in this
server — every `git add` is immediately committed). -/
def lsFiles (st : VaultState) : List String :=
  (headSnap st).map (·.1)

/-- The source's manifest/bootstrap filter over `git ls-files` output:
drop empties, the gitignore file, and everything under `.scion/`. -/
def trackedUserFiles (st : VaultState) : List String :=
  (lsFiles st).filter
    (fun f => f != "" && f != ".gitignore" && !(f.startsWith ".scion/"))

/-- `git diff --name-only a b`: the paths whose content differs between the
two trees. -/
def gitDiffNames (a b : Snapshot) : List String :=
  ((a.map (·.1)) ++ (b.map (·.1))).dedup.filter
    (fun p => decide (lookupA a p ≠ lookupA b p))

/-- `git commit --amend --no-edit` after staging extra content into the head
commit: the head commit is rewritten in place, and — its tree and committer
timestamp differing from the pre-amend commit — it hashes to a fresh id. -/
def amendHead (st : VaultState) (now : Nat) (p : String) (c : Content) : VaultState :=
  match st.history.getLast? with
  | none => st
  | some last =>
    { st with
      history := st.history.dropLast ++ [⟨st.nextCommit, now, setA last.snap p c⟩]
      nextCommit := st.nextCommit + 1 }

/-- `git log -1 --format=%H -- p`: the newest commit in which `p` changed
relative to its parent (addition, modification or deletion), none when no
commit touched the path. -/
def lastCommitFor (st : VaultState) (p : String) : Option CommitId :=
  ((st.history.zip (([] : Snapshot) :: st.history.map (·.snap))).filterMap
    (fun x => if lookupA x.1.snap p = lookupA x.2 p then none else some x.1.id)).getLast?

/-! ## Identity store (metadata.ts) -/

/-- `getFileById`: `SELECT * FROM files WHERE file_id = ?` — note: no
`deleted_at IS NULL` filter in the source. -/
def getFileById (st : VaultState) (fid : FileId) : Option FileMeta :=
  st.files.find? (fun r => r.file_id == fid)

/-- `getFileByPath`: `SELECT * FROM files WHERE vault_id = ? AND
current_path = ? AND deleted_at IS NULL`. -/
def getFileByPath (st : VaultState) (p : String) : Option FileMeta :=
  st.files.find? (fun r => r.current_path == p && r.deleted_at.isNone)

/-- `getFilesByHash`: active rows whose content hash matches. -/
def getFilesByHash (st : VaultState) (h : Hash) : List FileMeta :=
  st.files.filter (fun r => r.content_hash == some h && r.deleted_at.isNone)

/-- The rows `updateGitManifest` serialises: active rows' id, path and
creation time, plus the manifest's own `updated_at` stamp (part of the JSON,
so part of the bytes). -/
def serializeManifest (files : List FileMeta) (now : Nat) : Content :=
  toString
    ((files.filter (fun r => r.deleted_at.isNone)).map
      (fun r => (r.file_id, r.current_path, r.created_at)), now)

/-- `updateGitManifest`: rewrite `.scion/manifest.json` in the working
directory from the active rows (not committed here). -/
def updateGitManifest (st : VaultState) (now : Nat) : VaultState :=
  { st with workdir := setA st.workdir ".scion/manifest.json" (serializeManifest st.files now) }

/-- `createFileRecord`: insert a fresh row with a new UUID, then rewrite the
disaster-recovery manifest. -/
def createFileRecord (st : VaultState) (now : Nat) (p : String)
    (h : Option Hash) (c : Option CommitId) : FileMeta × VaultState :=
  let row : FileMeta :=
    ⟨st.nextId, p, h, c, now, now, none⟩
  let st' := { st with files := st.files ++ [row], nextId := st.nextId + 1 }
  (row, updateGitManifest st' now)

/-- `updateFileRecord`: `UPDATE files SET … WHERE file_id = ?` — each outer
`Option` marks whether the column is in the SET clause, the inner value is
what it is set to (SQL NULL included); `updated_at` is always bumped; when
the row changed and `current_path` was in the SET clause, the manifest is
rewritten. -/
def updateFileRecord (st : VaultState) (now : Nat) (fid : FileId)
    (newPath : Option String) (newHash : Option (Option Hash))
    (newCommit : Option (Option CommitId)) : Bool × VaultState :=
  if st.files.any (fun r => r.file_id == fid) then
    let files' := st.files.map (fun r =>
      if r.file_id == fid then
        { r with
          current_path := newPath.getD r.current_path
          content_hash := newHash.getD r.content_hash
          git_commit := newCommit.getD r.git_commit
          updated_at := now }
      else r)
    let st' := { st with files := files' }
    (true, if newPath.isSome then updateGitManifest st' now else st')
  else (false, st)

/-- `recordPathChange`: append a rename row to the path history. -/
def recordPathChange (st : VaultState) (now : Nat) (fid : FileId)
    (oldP newP : String) : VaultState :=
  { st with pathHist := st.pathHist ++ [⟨fid, oldP, newP, now⟩] }

/-- `getAllPreviousPaths`: the set of `old_path` values in the file's path
history (the source deduplicates through a `Set`; only membership is ever
consumed). -/
def getAllPreviousPaths (st : VaultState) (fid : FileId) : List String :=
  ((st.pathHist.filter (fun e => e.file_id == fid)).map (·.old_path)).dedup

/-- `softDeleteFile`: `UPDATE files SET deleted_at = ?, updated_at = ?
WHERE file_id = ?`, then rewrite the manifest when a row matched. -/
def softDeleteFile (st : VaultState) (now : Nat) (fid : FileId) :
    Bool × VaultState :=
  if st.files.any (fun r => r.file_id == fid) then
    let files' := st.files.map (fun r =>
      if r.file_id == fid then { r with deleted_at := some now, updated_at := now } else r)
    (true, updateGitManifest { st with files := files' } now)
  else (false, st)

/-- `ensureFileId`: return the active record's id for the path, updating its
hash/commit when either argument is truthy; otherwise create a fresh row. -/
def ensureFileId (st : VaultState) (now : Nat) (p : String)
    (h : Option Hash) (c : Option CommitId) : FileId × VaultState :=
  match getFileByPath st p with
  | some r =>
    if h.isSome || c.isSome then
      (r.file_id, (updateFileRecord st now r.file_id none (some h) (some c)).2)
    else (r.file_id, st)
  | none =>
    let q1 := createFileRecord st now p h c
    let row := q1.1
    let st' := q1.2
    (row.file_id, st')

/-- `isVaultBootstrapped`: the metadata DB exists and holds at least one row
for the vault. -/
def isVaultBootstrapped (st : VaultState) : Bool :=
  !st.files.isEmpty

/-- `detectRenameByHash`: exactly one active record with the missing file's
hash at a different path is a rename; zero or several (ambiguous) yield
none. -/
def detectRenameByHash (st : VaultState) (missing : String) (h : Hash) :
    Option FileMeta :=
  let cands := (getFilesByHash st h).filter (fun r => r.current_path != missing)
  if cands.length == 1 then cands.head? else none

/-! ## Manifest, bootstrap and change queries (db.ts) -/

/-- A git-side manifest row (db.ts `FileRecord`). `commit` is the output of
`git log -1 -- path`; `none` models the empty string the command prints for
a path no commit touched. -/
structure FileRecord where
  file_id : FileId
  path : String
  hash : Hash
  commit : Option CommitId
  updated_at : Nat
deriving Repr, DecidableEq

/-- `commitFile` without the write: `git add p && git commit`, committing the
working-directory content of `p`, swallowing "nothing to commit" — the shape
`bootstrapVaultMetadata` uses for `.scion/manifest.json`. -/
def commitPathFromWorkdir (st : VaultState) (now : Nat) (p : String) : VaultState :=
  match lookupA st.workdir p with
  | none => st
  | some c =>
    if lookupA (headSnap st) p = some c then st
    else
      { st with
        history := st.history ++ [⟨st.nextCommit, now, setA (headSnap st) p c⟩]
        nextCommit := st.nextCommit + 1 }

/-- The per-path body of `bootstrapVaultMetadata`'s loop: skip paths missing
from disk, otherwise `ensureFileId` with the disk hash and last commit. -/
def bootstrapLoop (now : Nat) : List String → VaultState → VaultState
  | [], st => st
  | p :: rest, st =>
    match lookupA st.workdir p with
    | none => bootstrapLoop now rest st
    | some c =>
      bootstrapLoop now rest
        (ensureFileId st now p (some (computeHash c)) (lastCommitFor st p)).2

/-- `bootstrapVaultMetadata`: assign UUIDs to every tracked file, rewrite the
disaster-recovery manifest and commit it ("Initialize Scion metadata"). -/
def bootstrapVaultMetadata (st : VaultState) (now : Nat) : VaultState :=
  let files := trackedUserFiles st
  let st := bootstrapLoop now files st
  let st := updateGitManifest st now
  commitPathFromWorkdir st now ".scion/manifest.json"

/-- The per-path body of `getManifest`'s loop: skip paths missing from disk,
hash the disk bytes, look up the newest commit touching the path and its
time, `ensureFileId`, and emit the row. -/
def manifestLoop (now : Nat) : List String → VaultState → List FileRecord →
    List FileRecord × VaultState
  | [], st, acc => (acc, st)
  | p :: rest, st, acc =>
    match lookupA st.workdir p with
    | none => manifestLoop now rest st acc
    | some c =>
      let h := computeHash c
      let cmt := lastCommitFor st p
      let upd := (cmt.bind (timeOf st)).getD now
      let q2 := ensureFileId st now p (some h) cmt
      let fid := q2.1
      let st' := q2.2
      manifestLoop now rest st' (acc ++ [⟨fid, p, h, cmt, upd⟩])

/-- `getManifest`: all tracked files outside the reserved paths, with hash,
last commit and identity; bootstraps the metadata store on first use. -/
def getManifest (st : VaultState) (now : Nat) : List FileRecord × VaultState :=
  let st := initVaultGit st now
  match getHeadCommit st with
  | none => ([], st)
  | some _ =>
    let files := trackedUserFiles st
    let st :=
      if !files.isEmpty && !isVaultBootstrapped st then bootstrapVaultMetadata st now
      else st
    manifestLoop now files st []

/-- `getChangesSince`: head plus the list of changed paths. Returns the empty
list when `since` is null or equals head; diffs the trees when `since`
resolves (dropping only `.gitignore`); falls back to all manifest paths when
`since` names an unknown commit (the `git diff` failure branch). -/
def getChangesSince (st : VaultState) (now : Nat) (since : Option CommitId) :
    (Option CommitId × List String) × VaultState :=
  let st := initVaultGit st now
  match getHeadCommit st with
  | none => ((none, []), st)
  | some head =>
    match since with
    | none => ((some head, []), st)
    | some s =>
      if s == head then ((some head, []), st)
      else
        match snapAt st s with
        | some base =>
          ((some head,
            (gitDiffNames base (headSnap st)).filter
              (fun f => f != "" && f != ".gitignore")), st)
        | none =>
          let q3 := getManifest st now
          let records := q3.1
          let st' := q3.2
          ((some head, records.map (·.path)), st')

/-- `getFileRecord`: none when the path is not on disk; otherwise the hash of
the disk bytes, the newest commit touching the path (`none` models the empty
`git log` output for an untouched path — callers coalesce it with head) and
the ensured identity. -/
def getFileRecord (st : VaultState) (now : Nat) (p : String) :
    Option FileRecord × VaultState :=
  match lookupA st.workdir p with
  | none => (none, st)
  | some c =>
    let h := computeHash c
    let cmt := lastCommitFor st p
    let upd := (cmt.bind (timeOf st)).getD now
    let q4 := ensureFileId st now p (some h) cmt
    let fid := q4.1
    let st' := q4.2
    (some ⟨fid, p, h, cmt, upd⟩, st')

/-! ## Rename detection and rename (db.ts) -/

/-- The detect-rename result (db.ts `detectRename` return shape). -/
structure RenameDetection where
  found : Bool
  newPath : Option String
  fileId : Option FileId
  method : Option String
deriving Repr, DecidableEq

/-- `detectRename`: strategy 1 — a provided file id resolving to an active
record at a different path; strategy 2 — a unique active hash match at a
different path; strategy 3 — scan the manifest for a file whose path history
contains the missing path. -/
def detectRename (st : VaultState) (now : Nat) (missing : String) (h : Hash)
    (fid? : Option FileId) : RenameDetection × VaultState :=
  let byId : Option FileMeta :=
    match fid? with
    | none => none
    | some fid =>
      match getFileById st fid with
      | none => none
      | some m =>
        if m.current_path != missing && m.deleted_at.isNone then some m else none
  match byId with
  | some m => (⟨true, some m.current_path, some m.file_id, some "file_id"⟩, st)
  | none =>
    match detectRenameByHash st missing h with
    | some m => (⟨true, some m.current_path, some m.file_id, some "hash_match"⟩, st)
    | none =>
      let q5 := getManifest st now
      let allFiles := q5.1
      let st' := q5.2
      match allFiles.find? (fun f => (getAllPreviousPaths st' f.file_id).contains missing) with
      | some f => (⟨true, some f.path, some f.file_id, some "path_history"⟩, st')
      | none => (⟨false, none, none, none⟩, st')

/-- The rename result (db.ts `renameFile` return shape); `commit = none`
models the empty-string commit of the failure branches. -/
structure RenameResult where
  success : Bool
  commit : Option CommitId
  error : Option String
deriving Repr, DecidableEq

/-- `renameFile`: after verifying the disk file and the identity record,
`git mv` + optional content write + commit; then path history, record
update, manifest rewrite and `git commit --amend` folding the manifest into
the rename commit. The returned commit id is captured *before* the amend.
`git mv` succeeds when the old path is tracked and nothing occupies the new
path on disk. -/
def renameFile (st : VaultState) (now : Nat) (fid : FileId)
    (oldP newP : String) (newContent : Option Content) :
    RenameResult × VaultState :=
  let st := initVaultGit st now
  match lookupA st.workdir oldP with
  | none => (⟨false, none, some "File not found at old path"⟩, st)
  | some oldBytes =>
    match getFileById st fid with
    | none => (⟨false, none, some "File ID not found in metadata"⟩, st)
    | some m =>
      if m.current_path != oldP then
        (⟨false, none, some "File ID does not match old path"⟩, st)
      else if lookupA (headSnap st) oldP = none || (lookupA st.workdir newP).isSome then
        (⟨false, none, some "git mv failed"⟩, st)
      else
        let finalBytes := newContent.getD oldBytes
        let wd := setA (eraseA st.workdir oldP) newP finalBytes
        let snap' := setA (eraseA (headSnap st) oldP) newP finalBytes
        let c1 := st.nextCommit
        let st := { st with
          workdir := wd
          history := st.history ++ [⟨c1, now, snap'⟩]
          nextCommit := c1 + 1 }
        let h := computeHash finalBytes
        let st := recordPathChange st now fid oldP newP
        let st := (updateFileRecord st now fid (some newP) (some (some h)) (some (some c1))).2
        let st := updateGitManifest st now
        let st := amendHead st now ".scion/manifest.json"
          ((lookupA st.workdir ".scion/manifest.json").getD "")
        (⟨true, some c1, none⟩, st)

/-! ## Operation engine (operations.ts) -/

/-- A v2 sync operation as decoded from the wire. `type` is the raw string
(the dispatcher handles unknown values); `content` holds the decoded bytes
(`none` = field absent; the source's falsy checks also reject `""`). -/
structure SyncOperation where
  type : String
  path : String
  file_id : Option FileId
  old_path : Option String
  content : Option Content
  base_commit : Option CommitId
deriving Repr, DecidableEq

/-- A per-operation result (operations.ts `OperationResult`). -/
structure OperationResult where
  index : Nat
  success : Bool
  file_id : Option FileId
  commit : Option CommitId
  hash : Option Hash
  error : Option String
  merged : Option Bool
  has_conflicts : Option Bool
  merged_content : Option Content
deriving Repr, DecidableEq

/-- A failure result with only index and error populated. -/
def failResult (i : Nat) (e : String) : OperationResult :=
  ⟨i, false, none, none, none, some e, none, none, none⟩

/-- The source's falsy test on an optional string-like field: absent or
empty. -/
def falsy : Option Content → Bool
  | none => true
  | some c => c == ""

/-- `processCreate`: reject when content is falsy or the path already exists
on disk; otherwise commit the bytes and ensure an identity. -/
def processCreate (st : VaultState) (now : Nat) (op : SyncOperation)
    (i : Nat) : OperationResult × VaultState :=
  if falsy op.content then
    (failResult i "Content required for create operation", st)
  else
    match getCurrentFile st op.path with
    | some _ => (failResult i ("File already exists: " ++ op.path), st)
    | none =>
      let c := op.content.getD ""
      let h := computeHash c
      let q6 := commitFile st now op.path c
      let commit := q6.1
      let st := q6.2
      let q7 := ensureFileId st now op.path (some h) (some commit)
      let fid := q7.1
      let st := q7.2
      (⟨i, true, some fid, some commit, some h, none, some false, some false, none⟩, st)

/-- `processModify`: fast-forward when the base commit equals head; no-op
when the bytes match the server's; recreate when the server copy is gone;
otherwise three-way merge (base = bytes at `base_commit`, falling back to
the server bytes), committing only a clean merge. -/
def processModify (m : MergeFn) (st : VaultState) (now : Nat)
    (op : SyncOperation) (i : Nat) : OperationResult × VaultState :=
  if falsy op.content then
    (failResult i "Content required for modify operation", st)
  else
    match op.file_id with
    | none => (failResult i "file_id required for modify operation", st)
    | some fid =>
      match getFileById st fid with
      | none => (failResult i ("File not found: " ++ toString fid), st)
      | some meta =>
        if meta.deleted_at.isSome then
          (failResult i ("File not found: " ++ toString fid), st)
        else
          let c := op.content.getD ""
          let clientHash := computeHash c
          let head? := getHeadCommit st
          let server? := getCurrentFile st meta.current_path
          if op.base_commit.isSome && op.base_commit == head? then
            let q8 := commitFile st now meta.current_path c
            let commit := q8.1
            let st := q8.2
            let q9 := ensureFileId st now meta.current_path (some clientHash) (some commit)
            let fid' := q9.1
            let st := q9.2
            (⟨i, true, some fid', some commit, some clientHash, none,
              some false, some false, none⟩, st)
          else
            match server? with
            | some sc =>
              if clientHash == computeHash sc then
                let q10 := getFileRecord st now meta.current_path
                let record? := q10.1
                let st := q10.2
                (⟨i, true, some fid, ((record?.bind (·.commit)).orElse (fun _ => head?)),
                  some clientHash, none, some false, some false, none⟩, st)
              else
                let base :=
                  match op.base_commit with
                  | some b => (getFileAtCommit st meta.current_path b).getD sc
                  | none => sc
                let r := m base c sc
                if r.hasConflicts then
                  let mh := computeHash r.merged
                  let q11 := ensureFileId st now meta.current_path (some mh) head?
                  let fid' := q11.1
                  let st := q11.2
                  (⟨i, true, some fid', head?, some mh, none,
                    some true, some true, some r.merged⟩, st)
                else
                  let mh := computeHash r.merged
                  let q12 := commitFile st now meta.current_path r.merged
                  let commit := q12.1
                  let st := q12.2
                  let q13 := ensureFileId st now meta.current_path (some mh) (some commit)
                  let fid' := q13.1
                  let st := q13.2
                  (⟨i, true, some fid', some commit, some mh, none,
                    some true, some false, some r.merged⟩, st)
            | none =>
              let q14 := commitFile st now meta.current_path c
              let commit := q14.1
              let st := q14.2
              let q15 := ensureFileId st now meta.current_path (some clientHash) (some commit)
              let fid' := q15.1
              let st := q15.2
              (⟨i, true, some fid', some commit, some clientHash, none,
                some false, some false, none⟩, st)

/-- `processRename`: delegate to `renameFile`, then report the new path's
record. -/
def processRename (st : VaultState) (now : Nat) (op : SyncOperation)
    (i : Nat) : OperationResult × VaultState :=
  match op.file_id with
  | none => (failResult i "file_id required for rename operation", st)
  | some fid =>
    match op.old_path with
    | none => (failResult i "old_path required for rename operation", st)
    | some oldP =>
      if oldP == "" then (failResult i "old_path required for rename operation", st)
      else
        let newContent := if falsy op.content then none else op.content
        let q16 := renameFile st now fid oldP op.path newContent
        let r := q16.1
        let st := q16.2
        if !r.success then (failResult i (r.error.getD "Unknown error"), st)
        else
          let q17 := getFileRecord st now op.path
          let record? := q17.1
          let st := q17.2
          (⟨i, true, record?.map (·.file_id), r.commit, record?.map (·.hash),
            none, some false, some false, none⟩, st)

/-- `processDelete`: soft-delete the identity record first, then remove the
content; a failed content removal is reported as failure but the soft delete
is not rolled back. -/
def processDelete (st : VaultState) (now : Nat) (op : SyncOperation)
    (i : Nat) : OperationResult × VaultState :=
  match op.file_id with
  | none => (failResult i "file_id required for delete operation", st)
  | some fid =>
    match getFileById st fid with
    | none => (failResult i ("File not found: " ++ toString fid), st)
    | some meta =>
      let st := (softDeleteFile st now fid).2
      let q18 := deleteFile st now meta.current_path
      let deleted := q18.1
      let st := q18.2
      if !deleted then
        (failResult i ("Failed to delete file: " ++ meta.current_path), st)
      else
        (⟨i, true, some fid, getHeadCommit st, none, none, some false, some false, none⟩, st)

/-- `processOperation`: initialise the vault, then dispatch on the raw
operation type. -/
def processOperation (m : MergeFn) (st : VaultState) (now : Nat)
    (op : SyncOperation) (i : Nat) : OperationResult × VaultState :=
  let st := initVaultGit st now
  if op.type == "create" then processCreate st now op i
  else if op.type == "modify" then processModify m st now op i
  else if op.type == "rename" then processRename st now op i
  else if op.type == "delete" then processDelete st now op i
  else (failResult i ("Unknown operation type: " ++ op.type), st)

/-! ## HTTP handlers (server.ts) -/

/-- The `/sync` response body. -/
structure SyncResponse where
  success : Bool
  commit : Option CommitId
  hash : Option Hash
  file_id : Option FileId
  merged : Bool
  has_conflicts : Bool
  merged_content : Option Content
  error : Option String
deriving Repr, DecidableEq

/-- A 400 response carrying only an error string. -/
def syncErrorResponse (e : String) : SyncResponse :=
  ⟨false, none, none, none, false, false, none, some e⟩

/-- `POST /vault/:v/sync` (`content = none` models an absent content field):
new file → commit; base = head → fast-forward commit; no base and identical
bytes → no-op; no base and differing bytes → merge against the server copy
as its own base; otherwise three-way merge against the bytes at
`base_commit` (empty base when the file was absent there). Conflicting
merges are returned with markers and not committed. -/
def syncEndpoint (m : MergeFn) (st : VaultState) (now : Nat) (p : String)
    (content : Option Content) (base : Option CommitId) :
    Nat × SyncResponse × VaultState :=
  if p == "" || content.isNone then
    (400, syncErrorResponse "Missing path or content", st)
  else
    let c := content.getD ""
    let st := initVaultGit st now
    let clientHash := computeHash c
    let head? := getHeadCommit st
    match getCurrentFile st p with
    | none =>
      let q19 := commitFile st now p c
      let commit := q19.1
      let st := q19.2
      let q20 := ensureFileId st now p (some clientHash) (some commit)
      let fid := q20.1
      let st := q20.2
      (200, ⟨true, some commit, some clientHash, some fid, false, false, none, none⟩, st)
    | some sc =>
      if base.isSome && base == head? then
        let q21 := commitFile st now p c
        let commit := q21.1
        let st := q21.2
        let q22 := ensureFileId st now p (some clientHash) (some commit)
        let fid := q22.1
        let st := q22.2
        (200, ⟨true, some commit, some clientHash, some fid, false, false, none, none⟩, st)
      else
        match base with
        | none =>
          if clientHash == computeHash sc then
            let q23 := getFileRecord st now p
            let record? := q23.1
            let st := q23.2
            let retCommit := ((record?.bind (·.commit)).orElse (fun _ => head?))
            let q24 := ensureFileId st now p (some clientHash) retCommit
            let fid := q24.1
            let st := q24.2
            (200, ⟨true, retCommit, some clientHash, some fid, false, false, none, none⟩, st)
          else
            let r := m sc c sc
            if r.hasConflicts then
              let mh := computeHash r.merged
              let q25 := ensureFileId st now p (some mh) head?
              let fid := q25.1
              let st := q25.2
              (200, ⟨true, head?, some mh, some fid, true, true, some r.merged, none⟩, st)
            else
              let mh := computeHash r.merged
              let q26 := commitFile st now p r.merged
              let commit := q26.1
              let st := q26.2
              let q27 := ensureFileId st now p (some mh) (some commit)
              let fid := q27.1
              let st := q27.2
              (200, ⟨true, some commit, some mh, some fid, true, false, some r.merged, none⟩, st)
        | some b =>
          match getFileAtCommit st p b with
          | none =>
            let r := m "" c sc
            if r.hasConflicts then
              let mh := computeHash r.merged
              let q28 := ensureFileId st now p (some mh) head?
              let fid := q28.1
              let st := q28.2
              (200, ⟨true, head?, some mh, some fid, true, true, some r.merged, none⟩, st)
            else
              let mh := computeHash r.merged
              let q29 := commitFile st now p r.merged
              let commit := q29.1
              let st := q29.2
              let q30 := ensureFileId st now p (some mh) (some commit)
              let fid := q30.1
              let st := q30.2
              (200, ⟨true, some commit, some mh, some fid, true, false, some r.merged, none⟩, st)
          | some baseContent =>
            let r := m baseContent c sc
            if r.hasConflicts then
              let mh := computeHash r.merged
              let q31 := ensureFileId st now p (some mh) head?
              let fid := q31.1
              let st := q31.2
              (200, ⟨true, head?, some mh, some fid, true, true, some r.merged, none⟩, st)
            else
              let mh := computeHash r.merged
              let q32 := commitFile st now p r.merged
              let commit := q32.1
              let st := q32.2
              let q33 := ensureFileId st now p (some mh) (some commit)
              let fid := q33.1
              let st := q33.2
              (200, ⟨true, some commit, some mh, some fid, true, false, some r.merged, none⟩, st)

/-- The `/sync/v2` response body. -/
structure V2Response where
  success : Bool
  results : List OperationResult
  head_commit : Option CommitId
  error : Option String
deriving Repr, DecidableEq

/-- The `/sync/v2` loop: process operations in order; in atomic mode a
malformed operation or a failed result aborts with 400, partial results and
the pre-batch head; otherwise results accumulate and the final head is
reported. -/
def v2Loop (m : MergeFn) (atomic : Bool) (startCommit : Option CommitId) (now : Nat) :
    List SyncOperation → Nat → List OperationResult → VaultState →
    Nat × V2Response × VaultState
  | [], _, results, st =>
    (200, ⟨results.all (·.success), results, getHeadCommit st, none⟩, st)
  | op :: rest, i, results, st =>
    if op.type == "" || op.path == "" then
      let results := results ++ [failResult i "Operation requires type and path"]
      if atomic then
        (400, ⟨false, results, startCommit,
          some ("Operation " ++ toString i ++ " failed: Operation requires type and path")⟩, st)
      else v2Loop m atomic startCommit now rest (i + 1) results st
    else
      let q34 := processOperation m st now op i
      let r := q34.1
      let st := q34.2
      let results := results ++ [r]
      if !r.success && atomic then
        (400, ⟨false, results, startCommit,
          some ("Operation " ++ toString i ++ " failed: " ++ (r.error.getD ""))⟩, st)
      else v2Loop m atomic startCommit now rest (i + 1) results st

/-- `POST /vault/:v/sync/v2`: reject an empty operation list, otherwise run
the batch loop from the pre-batch head. -/
def syncV2 (m : MergeFn) (st : VaultState) (now : Nat)
    (ops : List SyncOperation) (atomic : Bool) :
    Nat × V2Response × VaultState :=
  if ops.isEmpty then
    (400, ⟨false, [], none, some "operations array is required"⟩, st)
  else
    let st := initVaultGit st now
    v2Loop m atomic (getHeadCommit st) now ops 0 [] st

/-- `DELETE /vault/:v/file/*`: soft-delete the identity record when one is
active at the path, then remove the content; 404 when nothing was on disk. -/
def deleteEndpoint (st : VaultState) (now : Nat) (p : String) :
    Nat × VaultState :=
  let st :=
    match getFileByPath st p with
    | some meta => (softDeleteFile st now meta.file_id).2
    | none => st
  let q35 := deleteFile st now p
  let deleted := q35.1
  let st := q35.2
  if !deleted then (404, st) else (200, st)

/-- `POST /vault/:v/rename`: validate, run `renameFile`, then answer with the
new path's record. -/
def renameEndpoint (st : VaultState) (now : Nat) (fid : Option FileId)
    (oldP newP : String) (content : Option Content) :
    Nat × VaultState :=
  if fid.isNone || oldP == "" || newP == "" then (400, st)
  else
    let newContent := if falsy content then none else content
    let q36 := renameFile st now (fid.getD 0) oldP newP newContent
    let r := q36.1
    let st := q36.2
    if !r.success then (400, st)
    else
      let q37 := getFileRecord st now newP
      let st := q37.2
      (200, st)

/-! ## Real-time commit path (yjs-sync.ts) -/

/-- `handleYjsUpdate` with the CRDT step abstracted: applying the update to
the per-file document and materialising its text is the yjs library's work
(external to this repository), so the operation carries the materialised
text. The identity lookup is `getFileById` — with no deleted filter and no
`deleted_at` check here — and the text is committed at the record's current
path. -/
def handleYjsUpdate (st : VaultState) (now : Nat) (fid : FileId)
    (materializedText : Content) : Bool × VaultState :=
  match getFileById st fid with
  | none => (false, st)
  | some meta =>
    let q38 := commitFile st now meta.current_path materializedText
    let st := q38.2
    (true, st)

/-! ## The modelled operation surface -/

/-- One inbound server event, with its wall-clock time: every modelled
mutation path of the vault. -/
inductive ServerOp where
  | sync (now : Nat) (p : String) (content : Option Content) (base : Option CommitId)
  | batch (now : Nat) (ops : List SyncOperation) (atomic : Bool)
  | deletePath (now : Nat) (p : String)
  | rename (now : Nat) (fid : Option FileId) (oldP newP : String) (content : Option Content)
  | detect (now : Nat) (missing : String) (h : Hash) (fid? : Option FileId)
  | manifest (now : Nat)
  | status (now : Nat) (since : Option CommitId)
  | yjsUpdate (now : Nat) (fid : FileId) (text : Content)
deriving Repr

/-- The state transition of one server event. -/
def applyOp (m : MergeFn) (st : VaultState) : ServerOp → VaultState
  | .sync now p content base => (syncEndpoint m st now p content base).2.2
  | .batch now ops atomic => (syncV2 m st now ops atomic).2.2
  | .deletePath now p => (deleteEndpoint st now p).2
  | .rename now fid oldP newP content => (renameEndpoint st now fid oldP newP content).2
  | .detect now missing h fid? => (detectRename st now missing h fid?).2
  | .manifest now => (getManifest st now).2
  | .status now since => (getChangesSince st now since).2
  | .yjsUpdate now fid text => (handleYjsUpdate st now fid text).2

/-- A whole trace of server events. -/
def applyOps (m : MergeFn) (ops : List ServerOp) (st : VaultState) : VaultState :=
  ops.foldl (applyOp m) st

/-! ## Ground lemmas: association lists -/

theorem lookupA_nil (p : String) : lookupA [] p = none := rfl

theorem find?_filter_ne (s : Snapshot) (p q : String) (hq : q ≠ p) :
    (s.filter (fun e => e.1 != p)).find? (fun e => e.1 == q) =
      s.find? (fun e => e.1 == q) := by
  induction s with
  | nil => rfl
  | cons e rest ih =>
    by_cases hp : e.1 = p
    · have h2 : ¬((e.1 == q) = true) := by
        simp only [beq_iff_eq, hp]
        exact Ne.symm hq
      rw [List.filter_cons, if_neg (by simp [hp]),
        List.find?_cons_of_neg (p := fun (e : String × Content) => e.1 == q) rest h2, ih]
    · rw [List.filter_cons, if_pos (by simp [hp])]
      by_cases hqq : e.1 = q
      · rw [List.find?_cons_of_pos (p := fun (e : String × Content) => e.1 == q) _ (by simp [hqq]),
          List.find?_cons_of_pos (p := fun (e : String × Content) => e.1 == q) _ (by simp [hqq])]
      · rw [List.find?_cons_of_neg (p := fun (e : String × Content) => e.1 == q) _ (by simp [hqq]),
          List.find?_cons_of_neg (p := fun (e : String × Content) => e.1 == q) _ (by simp [hqq]), ih]

theorem lookupA_eraseA_self (s : Snapshot) (p : String) :
    lookupA (eraseA s p) p = none := by
  have : (s.filter (fun e => e.1 != p)).find? (fun e => e.1 == p) = none := by
    rw [List.find?_eq_none]
    intro e he
    have := List.of_mem_filter he
    simpa using this
  simp [lookupA, eraseA, this]

theorem lookupA_eraseA_ne (s : Snapshot) (p q : String) (hq : q ≠ p) :
    lookupA (eraseA s p) q = lookupA s q := by
  simp [lookupA, eraseA, find?_filter_ne s p q hq]

theorem lookupA_setA_self (s : Snapshot) (p : String) (c : Content) :
    lookupA (setA s p c) p = some c := by
  have hnone : (s.filter (fun e => e.1 != p)).find? (fun e => e.1 == p) = none := by
    rw [List.find?_eq_none]
    intro e he
    have := List.of_mem_filter he
    simpa using this
  simp [lookupA, setA, List.find?_append, hnone, List.find?]

theorem lookupA_setA_ne (s : Snapshot) (p q : String) (c : Content) (hq : q ≠ p) :
    lookupA (setA s p c) q = lookupA s q := by
  have h2 : ([(p, c)].find? (fun e => e.1 == q)) = none := by
    have hne : ¬(((p, c).1 == q) = true) := by
      simp only [beq_iff_eq]
      exact Ne.symm hq
    rw [List.find?_cons_of_neg (p := fun (e : String × Content) => e.1 == q) _ hne, List.find?_nil]
  rw [lookupA, setA, List.find?_append, find?_filter_ne s p q hq, h2]
  cases hf : s.find? (fun e => e.1 == q) <;> simp [lookupA, hf]

/-! ## Ground lemmas: what each primitive leaves untouched -/

theorem initVaultGit_noop (st : VaultState) (now : Nat) (h : st.history ≠ []) :
    initVaultGit st now = st := by
  unfold initVaultGit
  rw [if_neg]
  simpa [List.isEmpty_iff] using h

theorem initVaultGit_files (st : VaultState) (now : Nat) :
    (initVaultGit st now).files = st.files := by
  unfold initVaultGit; split <;> rfl

theorem initVaultGit_nextId (st : VaultState) (now : Nat) :
    (initVaultGit st now).nextId = st.nextId := by
  unfold initVaultGit; split <;> rfl

theorem initVaultGit_pathHist (st : VaultState) (now : Nat) :
    (initVaultGit st now).pathHist = st.pathHist := by
  unfold initVaultGit; split <;> rfl

theorem commitFile_files (st : VaultState) (now : Nat) (p : String) (c : Content) :
    ((commitFile st now p c).2).files = st.files := by
  simp only [commitFile]
  split <;> simp [initVaultGit_files]

theorem commitFile_nextId (st : VaultState) (now : Nat) (p : String) (c : Content) :
    ((commitFile st now p c).2).nextId = st.nextId := by
  simp only [commitFile]
  split <;> simp [initVaultGit_nextId]

theorem deleteFile_files (st : VaultState) (now : Nat) (p : String) :
    ((deleteFile st now p).2).files = st.files := by
  simp only [deleteFile]
  split
  · rfl
  · split <;> rfl

theorem deleteFile_nextId (st : VaultState) (now : Nat) (p : String) :
    ((deleteFile st now p).2).nextId = st.nextId := by
  simp only [deleteFile]
  split
  · rfl
  · split <;> rfl

theorem commitPathFromWorkdir_files (st : VaultState) (now : Nat) (p : String) :
    ((commitPathFromWorkdir st now p)).files = st.files := by
  simp only [commitPathFromWorkdir]
  split
  · rfl
  · split <;> rfl

theorem commitPathFromWorkdir_nextId (st : VaultState) (now : Nat) (p : String) :
    ((commitPathFromWorkdir st now p)).nextId = st.nextId := by
  simp only [commitPathFromWorkdir]
  split
  · rfl
  · split <;> rfl

theorem amendHead_files (st : VaultState) (now : Nat) (p : String) (c : Content) :
    (amendHead st now p c).files = st.files := by
  simp only [amendHead]
  split <;> rfl

theorem updateGitManifest_history (st : VaultState) (now : Nat) :
    (updateGitManifest st now).history = st.history := rfl

theorem updateGitManifest_files (st : VaultState) (now : Nat) :
    (updateGitManifest st now).files = st.files := rfl

theorem createFileRecord_history (st : VaultState) (now : Nat) (p : String)
    (h : Option Hash) (c : Option CommitId) :
    ((createFileRecord st now p h c).2).history = st.history := rfl

theorem updateFileRecord_history (st : VaultState) (now : Nat) (fid : FileId)
    (np : Option String) (nh : Option (Option Hash)) (nc : Option (Option CommitId)) :
    ((updateFileRecord st now fid np nh nc).2).history = st.history := by
  simp only [updateFileRecord]
  split
  · dsimp only
    split <;> rfl
  · rfl

theorem softDeleteFile_history (st : VaultState) (now : Nat) (fid : FileId) :
    ((softDeleteFile st now fid).2).history = st.history := by
  simp only [softDeleteFile]
  split <;> rfl

theorem ensureFileId_history (st : VaultState) (now : Nat) (p : String)
    (h : Option Hash) (c : Option CommitId) :
    ((ensureFileId st now p h c).2).history = st.history := by
  simp only [ensureFileId]
  split
  · split
    · exact updateFileRecord_history ..
    · rfl
  · exact createFileRecord_history ..

theorem getFileRecord_history (st : VaultState) (now : Nat) (p : String) :
    ((getFileRecord st now p).2).history = st.history := by
  simp only [getFileRecord]
  split
  · rfl
  · exact ensureFileId_history ..

/-! ## Concrete vault states used by witnesses and counterexamples -/

/-- The empty pre-init state. -/
def emptyVault : VaultState := ⟨[], [], 0, [], [], 0⟩

/-- One file `a.md` = "hello", uploaded through the sync endpoint
(history: init commit 0, then commit 1 adding `a.md`). -/
def vaultA : VaultState :=
  (syncEndpoint mergeFileModel emptyVault 1 "a.md" (some "hello") none).2.2

/-- `vaultA` with `a.md` fast-forwarded to "world" (commit 2). -/
def vaultB : VaultState :=
  (syncEndpoint mergeFileModel vaultA 3 "a.md" (some "world") (some 1)).2.2

/-- `vaultA` after renaming `a.md` to `b.md`: the rename commit (id 2) is
amended into commit 3 carrying the rewritten disaster-recovery manifest. -/
def vaultRenamed : VaultState :=
  (renameFile vaultA 4 0 "a.md" "b.md" none).2

/-- A state whose only identity row (file id 0 at `a.md`) is soft-deleted,
with nothing on disk. -/
def deletedRowVault : VaultState :=
  ⟨[], [], 0, [⟨0, "a.md", none, none, 0, 3, some 3⟩], [], 1⟩

/-! ## C9 — identity-store lookups and soft-deleted rows -/

/-- C9 counterexample: the claim says `get_by_id` excludes soft-deleted rows,
but `getFileById` (no `deleted_at IS NULL` in its query) returns the
soft-deleted row of `deletedRowVault` intact. -/
theorem c9_counterexample :
    getFileById deletedRowVault 0 = some ⟨0, "a.md", none, none, 0, 3, some 3⟩ ∧
    (getFileById deletedRowVault 0).map (·.deleted_at) = some (some 3) :=
  ⟨rfl, rfl⟩

/-- C9 (amended): `getFileByPath` excludes soft-deleted rows and matches the
path; `getFileById` merely matches the id — it returns soft-deleted rows too,
and its callers test `deleted_at` themselves. -/
theorem c9_lookup_contract :
    (∀ st p r, getFileByPath st p = some r → r.deleted_at = none ∧ r.current_path = p) ∧
    (∀ st fid r, getFileById st fid = some r → r.file_id = fid) ∧
    (∀ st fid, (∃ r ∈ st.files, r.file_id = fid) → (getFileById st fid).isSome = true) := by
  refine ⟨?_, ?_, ?_⟩
  · intro st p r h
    have hp := List.find?_some h
    simp only [Bool.and_eq_true, beq_iff_eq, Option.isNone_iff_eq_none] at hp
    exact ⟨hp.2, hp.1⟩
  · intro st fid r h
    have hp := List.find?_some h
    simpa using hp
  · intro st fid h
    obtain ⟨r, hr, he⟩ := h
    rw [getFileById, List.find?_isSome]
    exact ⟨r, hr, by simp [he]⟩

/-- An active row used to exercise the amended C9 lookup contract. -/
def activeRowVault : VaultState :=
  ⟨[], [], 0, [⟨5, "b.md", none, none, 0, 0, none⟩], [], 6⟩

theorem c9_lookup_contract_witness :
    ((⟨5, "b.md", none, none, 0, 0, none⟩ : FileMeta).deleted_at = none ∧
      (⟨5, "b.md", none, none, 0, 0, none⟩ : FileMeta).current_path = "b.md") ∧
    (⟨5, "b.md", none, none, 0, 0, none⟩ : FileMeta).file_id = 5 ∧
    (getFileById activeRowVault 5).isSome = true :=
  ⟨c9_lookup_contract.1 activeRowVault "b.md" _ rfl,
   c9_lookup_contract.2.1 activeRowVault 5 _ rfl,
   c9_lookup_contract.2.2 activeRowVault 5 ⟨_, List.Mem.head _, rfl⟩⟩

/-! ## C10 — what a failing delete leaves behind -/

theorem any_of_getFileById (st : VaultState) (fid : FileId) (r : FileMeta)
    (h : getFileById st fid = some r) :
    st.files.any (fun r => r.file_id == fid) = true := by
  rw [List.any_eq_true]
  have : (st.files.find? (fun r => r.file_id == fid)).isSome = true := by
    rw [getFileById] at h
    rw [h]
    rfl
  rw [List.find?_isSome] at this
  obtain ⟨x, hx, hpx⟩ := this
  exact ⟨x, hx, hpx⟩

theorem find?_map_update (l : List FileMeta) (fid : FileId) (g : FileMeta → FileMeta)
    (hg : ∀ r, (g r).file_id = r.file_id) :
    (l.map (fun r => if r.file_id == fid then g r else r)).find? (fun r => r.file_id == fid)
      = (l.find? (fun r => r.file_id == fid)).map g := by
  induction l with
  | nil => rfl
  | cons r rest ih =>
    by_cases hr : r.file_id = fid
    · have hb : (r.file_id == fid) = true := by simp [hr]
      have hgb : ((g r).file_id == fid) = true := by simp [hg, hr]
      rw [List.map_cons, if_pos hb,
        List.find?_cons_of_pos (p := fun (r : FileMeta) => r.file_id == fid) _ hgb,
        List.find?_cons_of_pos (p := fun (r : FileMeta) => r.file_id == fid) _ hb,
        Option.map_some']
    · have hb : ¬((r.file_id == fid) = true) := by simp [hr]
      rw [List.map_cons, if_neg hb,
        List.find?_cons_of_neg (p := fun (r : FileMeta) => r.file_id == fid) _ hb,
        List.find?_cons_of_neg (p := fun (r : FileMeta) => r.file_id == fid) _ hb, ih]

/-- The effect of a matching `softDeleteFile`, spelled out. -/
theorem softDeleteFile_spec (st : VaultState) (now : Nat) (fid : FileId)
    (h : st.files.any (fun r => r.file_id == fid) = true) :
    (softDeleteFile st now fid).2 =
      { st with
        files := st.files.map (fun r =>
          if r.file_id == fid then { r with deleted_at := some now, updated_at := now } else r)
        workdir := setA st.workdir ".scion/manifest.json"
          (serializeManifest (st.files.map (fun r =>
            if r.file_id == fid then { r with deleted_at := some now, updated_at := now } else r)) now) } := by
  simp only [softDeleteFile, if_pos h, updateGitManifest]

/-- C10 counterexample: `a.md`'s record is already soft-deleted at time 3 and
the bytes are gone from disk, so the v2 delete of file id 0 fails — yet the
identity record's `deleted_at`/`updated_at` are rewritten to the operation
time 9 and are no longer what they were before the failing call. -/
theorem c10_counterexample :
    (processDelete deletedRowVault 9 ⟨"delete", "a.md", some 0, none, none, none⟩ 0).1.success
      = false ∧
    (getFileById deletedRowVault 0).map (·.updated_at) = some 3 ∧
    (getFileById
      (processDelete deletedRowVault 9 ⟨"delete", "a.md", some 0, none, none, none⟩ 0).2
      0).map (·.updated_at) = some 9 ∧
    (getFileById
      (processDelete deletedRowVault 9 ⟨"delete", "a.md", some 0, none, none, none⟩ 0).2
      0).map (·.deleted_at) = some (some 9) :=
  ⟨rfl, rfl, rfl, rfl⟩

/-- C10 (amended): a delete whose identity record is absent leaves the state
fully unchanged; but when the record exists and the content removal fails,
the operation reports failure *after* having soft-deleted the record — its
`deleted_at` and `updated_at` are set to the operation time and the
disaster-recovery manifest on disk is rewritten — while the vault history is
unchanged. -/
theorem c10_delete_failure (st : VaultState) (now : Nat) (op : SyncOperation)
    (i : Nat) (fid : FileId) (hfid : op.file_id = some fid) :
    (getFileById st fid = none →
      processDelete st now op i = (failResult i ("File not found: " ++ toString fid), st)) ∧
    (∀ meta, getFileById st fid = some meta →
      meta.current_path ≠ ".scion/manifest.json" →
      getCurrentFile st meta.current_path = none →
      (processDelete st now op i).1.success = false ∧
      ((processDelete st now op i).2).history = st.history ∧
      (getFileById ((processDelete st now op i).2) fid).map (·.deleted_at)
        = some (some now) ∧
      (getFileById ((processDelete st now op i).2) fid).map (·.updated_at)
        = some now ∧
      lookupA ((processDelete st now op i).2).workdir ".scion/manifest.json"
        = some (serializeManifest ((processDelete st now op i).2).files now)) := by
  constructor
  · intro h
    simp only [processDelete, hfid, h]
  · intro meta hmeta hnp hgone
    have hany := any_of_getFileById st fid meta hmeta
    have hsd := softDeleteFile_spec st now fid hany
    have hlook : lookupA ((softDeleteFile st now fid).2).workdir meta.current_path = none := by
      rw [hsd]
      simpa [lookupA_setA_ne _ _ _ _ hnp] using hgone
    have hdel : deleteFile ((softDeleteFile st now fid).2) now meta.current_path
        = (false, (softDeleteFile st now fid).2) := by
      simp only [deleteFile, hlook]
    have hfind := hmeta
    rw [getFileById] at hfind
    simp only [processDelete, hfid, hmeta, hdel, Bool.not_false, if_true]
    rw [hsd]
    refine ⟨rfl, rfl, ?_, ?_, ?_⟩
    · rw [getFileById]
      dsimp only
      rw [find?_map_update st.files fid
        (fun r => { r with deleted_at := some now, updated_at := now }) (fun r => rfl), hfind]
      rfl
    · rw [getFileById]
      dsimp only
      rw [find?_map_update st.files fid
        (fun r => { r with deleted_at := some now, updated_at := now }) (fun r => rfl), hfind]
      rfl
    · dsimp only
      rw [lookupA_setA_self]

theorem c10_delete_failure_witness :
    processDelete deletedRowVault 9 ⟨"delete", "x", some 7, none, none, none⟩ 0
      = (failResult 0 "File not found: 7", deletedRowVault) ∧
    (processDelete deletedRowVault 9 ⟨"delete", "a.md", some 0, none, none, none⟩ 0).1.success
      = false :=
  ⟨(c10_delete_failure deletedRowVault 9 _ 0 7 rfl).1 rfl,
   ((c10_delete_failure deletedRowVault 9 _ 0 0 rfl).2
      ⟨0, "a.md", none, none, 0, 3, some 3⟩ rfl (by decide) rfl).1⟩


/-! ## C3 — `getChangesSince` and the null / unknown `since` -/

theorem history_ne_nil_of_head (st : VaultState) (h : CommitId)
    (hh : getHeadCommit st = some h) : st.history ≠ [] := by
  intro hnil
  rw [getHeadCommit, hnil] at hh
  simp at hh

theorem snapAt_head_isSome (st : VaultState) (h : CommitId)
    (hh : getHeadCommit st = some h) : (snapAt st h).isSome = true := by
  rw [getHeadCommit] at hh
  obtain ⟨e, he, hid⟩ := Option.map_eq_some'.mp hh
  have hmem := List.mem_of_getLast?_eq_some he
  rw [snapAt]
  have : (st.history.find? (fun e => e.id == h)).isSome = true := by
    rw [List.find?_isSome]
    exact ⟨e, hmem, by simp [hid]⟩
  cases hf : st.history.find? (fun e => e.id == h) with
  | none => rw [hf] at this; simp at this
  | some x => simp

/-- C3 counterexample: `vaultA` tracks exactly `a.md`, yet `changed_since`
with a null `since` returns the empty list, not the tracked paths — the
`!sinceCommit ||` short-circuit in the source treats null like
already-up-to-date. -/
theorem c3_counterexample :
    (getChangesSince vaultA 2 none).1.2 = ([] : List String) ∧
    trackedUserFiles vaultA = ["a.md"] :=
  ⟨rfl, rfl⟩

/-- C3 (amended): on a non-empty vault, `changed_since` returns the empty
list when `since` is null *or* equals head; it returns all manifest paths
only when `since` names an unknown commit. -/
theorem c3_changed_since (st : VaultState) (now : Nat) (h : CommitId)
    (hh : getHeadCommit st = some h) :
    (getChangesSince st now none).1 = (some h, []) ∧
    (getChangesSince st now (some h)).1 = (some h, []) ∧
    (∀ s, snapAt st s = none →
      (getChangesSince st now (some s)).1.2 = (getManifest st now).1.map (·.path)) := by
  have hne := history_ne_nil_of_head st h hh
  have hinit := initVaultGit_noop st now hne
  refine ⟨?_, ?_, ?_⟩
  · simp only [getChangesSince, hinit, hh]
  · simp only [getChangesSince, hinit, hh]
    rw [if_pos (by simp)]
  · intro s hs
    have hsh : s ≠ h := by
      intro he
      have hsome := snapAt_head_isSome st h hh
      rw [← he, hs] at hsome
      simp at hsome
    simp only [getChangesSince, hinit, hh]
    rw [if_neg (by simp [hsh]), hs]

theorem c3_changed_since_witness :
    (getChangesSince vaultA 2 none).1 = (some 1, []) ∧
    (getChangesSince vaultA 2 (some 1)).1 = (some 1, []) ∧
    (getChangesSince vaultA 2 (some 99)).1.2 = (getManifest vaultA 2).1.map (·.path) :=
  ⟨(c3_changed_since vaultA 2 1 rfl).1,
   (c3_changed_since vaultA 2 1 rfl).2.1,
   (c3_changed_since vaultA 2 1 rfl).2.2 99 rfl⟩


/-! ## C4 — reserved paths in manifest and changed-set outputs -/

/-- Every record the manifest loop emits beyond its accumulator is for a path
of the input list. -/
theorem manifestLoop_paths (now : Nat) :
    ∀ (l : List String) (st : VaultState) (acc : List FileRecord) (rec : FileRecord),
      rec ∈ (manifestLoop now l st acc).1 → rec ∈ acc ∨ rec.path ∈ l := by
  intro l
  induction l with
  | nil =>
    intro st acc rec h
    exact Or.inl h
  | cons p rest ih =>
    intro st acc rec h
    rw [manifestLoop] at h
    revert h
    cases hl : lookupA st.workdir p with
    | none =>
      intro h
      rcases ih _ _ _ h with hacc | hrest
      · exact Or.inl hacc
      · exact Or.inr (List.mem_cons_of_mem _ hrest)
    | some c =>
      intro h
      rcases ih _ _ _ h with hacc | hrest
      · rcases List.mem_append.mp hacc with hl2 | hr2
        · exact Or.inl hl2
        · rcases List.mem_singleton.mp hr2 with rfl
          exact Or.inr (List.mem_cons_self _ _)
      · exact Or.inr (List.mem_cons_of_mem _ hrest)

theorem trackedUserFiles_spec (st : VaultState) (p : String)
    (h : p ∈ trackedUserFiles st) :
    p ≠ ".gitignore" ∧ p.startsWith ".scion/" = false := by
  rw [trackedUserFiles] at h
  have hp := List.of_mem_filter h
  simp only [Bool.and_eq_true, bne_iff_ne, Bool.not_eq_true'] at hp
  exact ⟨hp.1.2, hp.2⟩

theorem getManifest_path_tracked (st : VaultState) (now : Nat) (rec : FileRecord)
    (h : rec ∈ (getManifest st now).1) :
    rec.path ∈ trackedUserFiles (initVaultGit st now) := by
  rw [getManifest] at h
  revert h
  cases hh : getHeadCommit (initVaultGit st now) with
  | none =>
    intro h
    simp at h
  | some c =>
    intro h
    dsimp only at h
    rcases manifestLoop_paths now _ _ _ _ h with habs | hmem
    · simp at habs
    · exact hmem

/-- C4 counterexample: after the rename in `vaultA` committed the
disaster-recovery manifest (by amend) into the rename commit, a status query
since the pre-rename commit reports `.scion/manifest.json` among the changed
paths — `getChangesSince` filters only `.gitignore`, not `.scion/`. -/
theorem c4_counterexample :
    ".scion/manifest.json" ∈ (getChangesSince vaultRenamed 5 (some 1)).1.2 := by
  decide

/-- C4 (amended): manifest rows never name the gitignore file or a `.scion/`
path, and `changed_since` never names the gitignore file — but `.scion/`
paths can appear in `changed_since` output (see the counterexample). -/
theorem c4_reserved_paths :
    (∀ st now rec, rec ∈ (getManifest st now).1 →
      rec.path ≠ ".gitignore" ∧ rec.path.startsWith ".scion/" = false) ∧
    (∀ st now since p, p ∈ (getChangesSince st now since).1.2 → p ≠ ".gitignore") := by
  constructor
  · intro st now rec h
    exact trackedUserFiles_spec _ _ (getManifest_path_tracked st now rec h)
  · intro st now since p h
    rw [getChangesSince] at h
    revert h
    cases hh : getHeadCommit (initVaultGit st now) with
    | none => intro h; simp at h
    | some hd =>
      cases since with
      | none => intro h; simp at h
      | some s =>
        dsimp only
        split
        · intro h; simp at h
        · cases hb : snapAt (initVaultGit st now) s with
          | some base =>
            intro h
            have hp := List.of_mem_filter h
            simp only [Bool.and_eq_true, bne_iff_ne] at hp
            exact hp.2
          | none =>
            intro h
            dsimp only at h
            rcases List.mem_map.mp h with ⟨rec, hrec, rfl⟩
            exact (trackedUserFiles_spec _ _
              (getManifest_path_tracked _ now rec hrec)).1

theorem c4_reserved_paths_witness :
    (("a.md" : String) ≠ ".gitignore" ∧ "a.md".startsWith ".scion/" = false) ∧
    ("b.md" : String) ≠ ".gitignore" :=
  ⟨c4_reserved_paths.1 vaultA 2 ⟨0, "a.md", computeHash "hello", some 1, 1⟩ (by decide),
   c4_reserved_paths.2 vaultRenamed 5 (some 1) "b.md" (by decide)⟩


/-! ## C5 — idempotent upload -/

/-- When the staged bytes equal the bytes at HEAD, `commitFile` is git's
"nothing to commit" path: the head id is returned and only the working
directory is (re)written. -/
theorem commitFile_noop (st : VaultState) (now : Nat) (p : String) (c : Content)
    (hne : st.history ≠ []) (hc : lookupA (headSnap st) p = some c) :
    commitFile st now p c = ((getHeadCommit st).getD 0,
      { st with workdir := setA st.workdir p c }) := by
  simp only [commitFile, initVaultGit_noop st now hne, if_pos hc]

/-- C5 counterexample: uploading `a.md`'s exact current bytes with a stale
but known `base_commit` (the init commit 0) drops into the three-way-merge
case and the response reports `merged = true` — the claim requires
`merged = false` for every `base_commit` argument. -/
theorem c5_counterexample :
    getCurrentFile vaultA "a.md" = some "hello" ∧
    (syncEndpoint mergeFileModel vaultA 3 "a.md" (some "hello") (some 0)).2.1.merged = true :=
  ⟨rfl, rfl⟩

/-- C5 (amended): uploading bytes identical to the server's current bytes
never conflicts and never moves HEAD (no commit is created), and the
response has `merged = false` exactly when `base_commit` is null or equals
head; a stale non-null `base_commit` yields `merged = true` (degenerate
clean merge) while still committing nothing. -/
theorem c5_idempotent_upload (m : MergeFn) (st : VaultState) (now : Nat)
    (p : String) (c : Content) (base : Option CommitId)
    (hm : MergeSpec m) (hp : p ≠ "") (hne : st.history ≠ [])
    (hwd : getCurrentFile st p = some c)
    (hhead : lookupA (headSnap st) p = some c) :
    ((syncEndpoint m st now p (some c) base).2.2).history = st.history ∧
    (syncEndpoint m st now p (some c) base).2.1.has_conflicts = false ∧
    (syncEndpoint m st now p (some c) base).2.1.success = true ∧
    ((syncEndpoint m st now p (some c) base).2.1.merged = true ↔
      (base ≠ none ∧ base ≠ getHeadCommit st)) := by
  have hpb : (p == "") = false := beq_eq_false_iff_ne.mpr hp
  have hcf := commitFile_noop st now p c hne hhead
  simp only [syncEndpoint, hpb, Option.isNone_some, Bool.or_self,
    initVaultGit_noop st now hne, hwd, Option.getD_some]
  rw [if_neg (by simp)]
  by_cases hb : (base.isSome && base == getHeadCommit st) = true
  · rw [if_pos hb, hcf]
    dsimp only
    simp only [Bool.and_eq_true, beq_iff_eq] at hb
    refine ⟨by rw [ensureFileId_history], rfl, rfl, ?_⟩
    constructor
    · intro hfalse
      exact absurd hfalse (by simp)
    · rintro ⟨h1, h2⟩
      exact absurd hb.2 h2
  · rw [if_neg hb]
    cases base with
    | none =>
      dsimp only
      have hself : (computeHash c == computeHash c) = true := beq_self_eq_true _
      rw [if_pos hself]
      dsimp only
      refine ⟨by rw [ensureFileId_history, getFileRecord_history], rfl, rfl, ?_⟩
      constructor
      · intro hfalse
        exact absurd hfalse (by simp)
      · rintro ⟨h1, h2⟩
        exact absurd rfl h1
    | some b =>
      dsimp only
      simp only [Bool.and_eq_true] at hb
      have hmerged : ¬((some b : Option CommitId) ≠ none ∧
          (some b : Option CommitId) ≠ getHeadCommit st) → False := by
        intro hno
        refine hno ⟨by simp, ?_⟩
        intro he
        exact hb ⟨rfl, by rw [he]; exact beq_self_eq_true _⟩
      rcases Option.eq_none_or_eq_some (getFileAtCommit st p b) with hbc | ⟨bc, hbc⟩
      · rw [hbc]
        dsimp only
        rw [hm "" c]
        dsimp only
        rw [if_neg (by simp), hcf]
        dsimp only
        refine ⟨by rw [ensureFileId_history], rfl, rfl, ?_⟩
        constructor
        · intro _
          by_contra hno
          exact hmerged hno
        · intro _
          rfl
      · rw [hbc]
        dsimp only
        rw [hm bc c]
        dsimp only
        rw [if_neg (by simp), hcf]
        dsimp only
        refine ⟨by rw [ensureFileId_history], rfl, rfl, ?_⟩
        constructor
        · intro _
          by_contra hno
          exact hmerged hno
        · intro _
          rfl

theorem c5_idempotent_upload_witness :
    ((syncEndpoint mergeFileModel vaultA 7 "a.md" (some "hello") (some 0)).2.2).history
      = vaultA.history ∧
    (syncEndpoint mergeFileModel vaultA 7 "a.md" (some "hello") (some 0)).2.1.has_conflicts
      = false ∧
    (syncEndpoint mergeFileModel vaultA 7 "a.md" (some "hello") (some 0)).2.1.success
      = true ∧
    ((syncEndpoint mergeFileModel vaultA 7 "a.md" (some "hello") (some 0)).2.1.merged = true ↔
      ((some 0 : Option CommitId) ≠ none ∧ (some 0 : Option CommitId) ≠ getHeadCommit vaultA)) :=
  c5_idempotent_upload mergeFileModel vaultA 7 "a.md" "hello" (some 0)
    mergeFileModel_spec (by decide) (by decide) rfl rfl


/-! ## C8 — the rename commit and the amended head -/

theorem recordPathChange_history (st : VaultState) (now : Nat) (fid : FileId)
    (o n : String) : (recordPathChange st now fid o n).history = st.history := rfl

theorem recordPathChange_nextCommit (st : VaultState) (now : Nat) (fid : FileId)
    (o n : String) : (recordPathChange st now fid o n).nextCommit = st.nextCommit := rfl

theorem updateGitManifest_nextCommit (st : VaultState) (now : Nat) :
    (updateGitManifest st now).nextCommit = st.nextCommit := rfl

theorem updateFileRecord_nextCommit (st : VaultState) (now : Nat) (fid : FileId)
    (np : Option String) (nh : Option (Option Hash)) (nc : Option (Option CommitId)) :
    ((updateFileRecord st now fid np nh nc).2).nextCommit = st.nextCommit := by
  simp only [updateFileRecord]
  split
  · dsimp only
    split <;> rfl
  · rfl

/-- `git commit --amend` on a head commit presented as `l ++ [x]`. -/
theorem amendHead_concat (st : VaultState) (now : Nat) (p : String) (c : Content)
    (l : List Commit) (x : Commit) (hh : st.history = l ++ [x]) :
    amendHead st now p c =
      { st with
        history := l ++ [⟨st.nextCommit, now, setA x.snap p c⟩]
        nextCommit := st.nextCommit + 1 } := by
  simp only [amendHead, hh, List.getLast?_concat, List.dropLast_concat]

/-- C8 counterexample: the rename of `a.md` to `b.md` succeeds and returns
commit 2 — the rename commit captured *before* the amend — while the vault
head after the operation is the amended commit 3; the returned commit is not
the post-operation HEAD. -/
theorem c8_counterexample :
    (renameFile vaultA 4 0 "a.md" "b.md" none).1.success = true ∧
    (renameFile vaultA 4 0 "a.md" "b.md" none).1.commit = some 2 ∧
    getHeadCommit vaultRenamed = some 3 ∧
    (renameFile vaultA 4 0 "a.md" "b.md" none).1.commit ≠ getHeadCommit vaultRenamed :=
  ⟨rfl, rfl, rfl, by decide⟩

/-- C8 (amended): a successful rename produces exactly one new commit in the
final history — the amended commit, whose tree holds the new path's bytes,
no old path, and the rewritten disaster-recovery manifest — but the commit
identifier the operation returns is the pre-amend id: it differs from the
post-operation HEAD and no commit in the final history carries it. -/
theorem c8_rename_head (st : VaultState) (now : Nat) (fid : FileId)
    (oldP newP : String) (content : Option Content) (ob tb : Content) (meta : FileMeta)
    (hne : st.history ≠ [])
    (hfresh : ∀ e ∈ st.history, e.id < st.nextCommit)
    (hold : lookupA st.workdir oldP = some ob)
    (hmeta : getFileById st fid = some meta)
    (hcur : meta.current_path = oldP)
    (htracked : lookupA (headSnap st) oldP = some tb)
    (hnew : lookupA st.workdir newP = none)
    (hop : oldP ≠ ".scion/manifest.json")
    (hnp : newP ≠ ".scion/manifest.json") :
    (renameFile st now fid oldP newP content).1.success = true ∧
    (renameFile st now fid oldP newP content).1.commit = some st.nextCommit ∧
    ((renameFile st now fid oldP newP content).2).history.length = st.history.length + 1 ∧
    getHeadCommit ((renameFile st now fid oldP newP content).2) = some (st.nextCommit + 1) ∧
    (renameFile st now fid oldP newP content).1.commit
      ≠ getHeadCommit ((renameFile st now fid oldP newP content).2) ∧
    (∀ e ∈ ((renameFile st now fid oldP newP content).2).history, e.id ≠ st.nextCommit) ∧
    (∃ last, ((renameFile st now fid oldP newP content).2).history.getLast? = some last ∧
      lookupA last.snap newP = some (content.getD ob) ∧
      lookupA last.snap oldP = none ∧
      (lookupA last.snap ".scion/manifest.json").isSome = true) := by
  have hon : oldP ≠ newP := by
    intro he
    rw [he, hnew] at hold
    cases hold
  simp only [renameFile, initVaultGit_noop st now hne]
  rw [hold]
  dsimp only
  rw [hmeta]
  dsimp only
  rw [if_neg (by simp [hcur]), if_neg (by simp [htracked, hnew])]
  dsimp only
  rw [amendHead_concat _ now _ _ st.history
    ⟨st.nextCommit, now, setA (eraseA (headSnap st) oldP) newP (content.getD ob)⟩
    (by rw [updateGitManifest_history, updateFileRecord_history, recordPathChange_history]),
    updateGitManifest_nextCommit, updateFileRecord_nextCommit, recordPathChange_nextCommit]
  dsimp only
  refine ⟨rfl, rfl, ?_, ?_, ?_, ?_, ?_⟩
  · rw [List.length_append]
    rfl
  · rw [getHeadCommit, List.getLast?_concat]
    rfl
  · rw [getHeadCommit, List.getLast?_concat]
    simp
  · intro e he
    rcases List.mem_append.mp he with hl | hr
    · exact Nat.ne_of_lt (hfresh e hl)
    · rcases List.mem_singleton.mp hr with rfl
      simp
  · refine ⟨_, List.getLast?_concat _, ?_, ?_, ?_⟩
    · dsimp only
      rw [lookupA_setA_ne _ _ _ _ hnp, lookupA_setA_self]
    · dsimp only
      rw [lookupA_setA_ne _ _ _ _ hop,
        lookupA_setA_ne _ _ _ _ hon, lookupA_eraseA_self]
    · dsimp only
      rw [lookupA_setA_self]
      rfl

theorem c8_rename_head_witness :
    (renameFile vaultA 9 0 "a.md" "c.md" none).1.success = true ∧
    getHeadCommit ((renameFile vaultA 9 0 "a.md" "c.md" none).2) = some 3 ∧
    (renameFile vaultA 9 0 "a.md" "c.md" none).1.commit
      ≠ getHeadCommit ((renameFile vaultA 9 0 "a.md" "c.md" none).2) := by
  have h := c8_rename_head vaultA 9 0 "a.md" "c.md" none "hello" "hello"
    ⟨0, "a.md", some (computeHash "hello"), some 1, 1, 1, none⟩
    (by decide) (by decide) rfl rfl rfl rfl rfl (by decide) (by decide)
  exact ⟨h.1, h.2.2.2.1, h.2.2.2.2.1⟩


/-! ## C6 — rename-detector resolution order -/

/-- A vault with two active files sharing the same bytes (`p1.md`, `p2.md`),
plus `k.md` whose path history records a rename from `gone.md`. -/
def c6Vault : VaultState :=
  ⟨[(".gitignore", gitignoreContent), ("p1.md", "dup"), ("p2.md", "dup"), ("k.md", "kk")],
   [⟨0, 0, [(".gitignore", gitignoreContent)]⟩,
    ⟨1, 1, [(".gitignore", gitignoreContent), ("p1.md", "dup"), ("p2.md", "dup"),
      ("k.md", "kk")]⟩],
   2,
   [⟨1, "p1.md", some (computeHash "dup"), some 1, 0, 0, none⟩,
    ⟨2, "p2.md", some (computeHash "dup"), some 1, 0, 0, none⟩,
    ⟨3, "k.md", some (computeHash "kk"), some 1, 0, 0, none⟩],
   [⟨3, "gone.md", "k.md", 1⟩],
   4⟩

/-- C6 counterexample: with two active records sharing the missing hash
(ambiguous), the detector does not stop at "not found" — it falls through to
the path-history scan and answers `found = true, method = path_history`. -/
theorem c6_counterexample :
    ((getFilesByHash c6Vault (computeHash "dup")).filter
      (fun r => r.current_path != "gone.md")).length = 2 ∧
    (detectRename c6Vault 9 "gone.md" (computeHash "dup") none).1 =
      ⟨true, some "k.md", some 3, some "path_history"⟩ :=
  ⟨rfl, rfl⟩

/-- C6 (amended): a provided file id resolving to an active record at a
different path wins with method `file_id`; with no file id, a unique active
hash match at a different path wins with method `hash_match`; with two or
more hash matches the hash strategy yields nothing and the detector falls
through to the path-history scan — it never answers `hash_match` and any
positive answer carries method `path_history`. -/
theorem c6_detect_order :
    (∀ st now missing h fid m, getFileById st fid = some m →
      m.current_path ≠ missing → m.deleted_at = none →
      (detectRename st now missing h (some fid)).1 =
        ⟨true, some m.current_path, some m.file_id, some "file_id"⟩) ∧
    (∀ st now missing h r,
      (getFilesByHash st h).filter (fun r => r.current_path != missing) = [r] →
      (detectRename st now missing h none).1 =
        ⟨true, some r.current_path, some r.file_id, some "hash_match"⟩) ∧
    (∀ st now missing h,
      2 ≤ ((getFilesByHash st h).filter (fun r => r.current_path != missing)).length →
      (detectRename st now missing h none).1.method ≠ some "hash_match" ∧
      ((detectRename st now missing h none).1.found = true →
        (detectRename st now missing h none).1.method = some "path_history")) := by
  refine ⟨?_, ?_, ?_⟩
  · intro st now missing h fid m hm hne hdel
    simp only [detectRename, hm]
    rw [if_pos (by simp [bne_iff_ne, hne, hdel])]
  · intro st now missing h r hr
    have hby : detectRenameByHash st missing h = some r := by
      simp only [detectRenameByHash, hr]
      rfl
    simp only [detectRename, hby]
  · intro st now missing h hlen
    have hby : detectRenameByHash st missing h = none := by
      simp only [detectRenameByHash]
      rw [if_neg]
      simp only [beq_iff_eq]
      omega
    simp only [detectRename, hby]
    rcases Option.eq_none_or_eq_some
        ((getManifest st now).1.find?
          (fun f => (getAllPreviousPaths (getManifest st now).2 f.file_id).contains missing))
      with hf | ⟨f, hf⟩
    · rw [hf]
      exact ⟨by simp, by simp⟩
    · rw [hf]
      exact ⟨by simp, fun _ => rfl⟩

theorem c6_detect_order_witness :
    (detectRename c6Vault 9 "gone.md" (computeHash "zz") (some 3)).1 =
      ⟨true, some "k.md", some 3, some "file_id"⟩ ∧
    (detectRename c6Vault 9 "zzz.md" (computeHash "kk") none).1 =
      ⟨true, some "k.md", some 3, some "hash_match"⟩ ∧
    (detectRename c6Vault 9 "gone.md" (computeHash "dup") none).1.method
      ≠ some "hash_match" :=
  ⟨c6_detect_order.1 c6Vault 9 "gone.md" (computeHash "zz") 3
      ⟨3, "k.md", some (computeHash "kk"), some 1, 0, 0, none⟩ rfl (by decide) rfl,
   c6_detect_order.2.1 c6Vault 9 "zzz.md" (computeHash "kk")
      ⟨3, "k.md", some (computeHash "kk"), some 1, 0, 0, none⟩ (by decide),
   (c6_detect_order.2.2 c6Vault 9 "gone.md" (computeHash "dup") (by decide)).1⟩


/-! ## C1 — conflicting merges commit nothing -/

/-- C1: part one — in `processModify`, when the operation reaches the
three-way merge (active record, not fast-forward, bytes differ) and the
merge reports conflicts, the result carries `merged = true`,
`has_conflicts = true`, the merge bytes (with markers) as `merged_content`,
the pre-operation head as `commit`, and the history is untouched. Part two —
whenever the single-file sync endpoint responds `has_conflicts = true`, the
response has `merged = true`, the head commit from before the operation, and
the history is untouched (no commit was created). -/
theorem c1_conflict_no_commit :
    (∀ (m : MergeFn) (st : VaultState) (now : Nat) (op : SyncOperation) (i : Nat)
      (fid : FileId) (meta : FileMeta) (c sc bse : Content),
      op.content = some c → c ≠ "" →
      op.file_id = some fid →
      getFileById st fid = some meta →
      meta.deleted_at = none →
      (op.base_commit.isSome && op.base_commit == getHeadCommit st) = false →
      getCurrentFile st meta.current_path = some sc →
      (computeHash c == computeHash sc) = false →
      bse = (match op.base_commit with
        | some b => (getFileAtCommit st meta.current_path b).getD sc
        | none => sc) →
      (m bse c sc).hasConflicts = true →
      (processModify m st now op i).1.success = true ∧
      (processModify m st now op i).1.merged = some true ∧
      (processModify m st now op i).1.has_conflicts = some true ∧
      (processModify m st now op i).1.commit = getHeadCommit st ∧
      (processModify m st now op i).1.merged_content = some ((m bse c sc).merged) ∧
      ((processModify m st now op i).2).history = st.history) ∧
    (∀ (m : MergeFn) (st : VaultState) (now : Nat) (p : String)
      (content : Option Content) (base : Option CommitId),
      (syncEndpoint m st now p content base).2.1.has_conflicts = true →
      (syncEndpoint m st now p content base).2.1.merged = true ∧
      (syncEndpoint m st now p content base).2.1.success = true ∧
      (syncEndpoint m st now p content base).2.1.commit
        = getHeadCommit (initVaultGit st now) ∧
      ((syncEndpoint m st now p content base).2.2).history
        = (initVaultGit st now).history ∧
      ((syncEndpoint m st now p content base).2.1.merged_content).isSome = true) := by
  constructor
  · intro m st now op i fid meta c sc bse hc hcne hfid hmeta hdel hff hsc hdiff hbse hconf
    have hfalsy : falsy op.content = false := by
      rw [hc]
      simpa [falsy] using hcne
    simp only [processModify]
    rw [if_neg (by rw [hfalsy]; simp), hfid]
    try dsimp only
    rw [hmeta]
    try dsimp only
    rw [if_neg (by rw [hdel]; simp), hc]
    simp only [Option.getD_some]
    rw [if_neg (by rw [hff]; simp), hsc]
    try dsimp only
    rw [if_neg (by rw [hdiff]; simp), ← hbse, if_pos hconf]
    exact ⟨rfl, rfl, rfl, rfl, rfl, by rw [ensureFileId_history]⟩
  · intro m st now p content base
    simp only [syncEndpoint]
    repeat' split
    all_goals intro h
    all_goals first
      | exact ⟨rfl, rfl, rfl, by rw [ensureFileId_history], rfl⟩
      | exact absurd h Bool.false_ne_true

theorem c1_conflict_no_commit_witness :
    ((processModify mergeFileModel vaultB 9
        ⟨"modify", "a.md", some 0, none, some "mine", some 1⟩ 0).1.commit
      = getHeadCommit vaultB ∧
     (processModify mergeFileModel vaultB 9
        ⟨"modify", "a.md", some 0, none, some "mine", some 1⟩ 0).1.has_conflicts
      = some true) ∧
    ((syncEndpoint mergeFileModel vaultB 9 "a.md" (some "mine") (some 1)).2.1.merged
      = true ∧
     ((syncEndpoint mergeFileModel vaultB 9 "a.md" (some "mine") (some 1)).2.2).history
      = (initVaultGit vaultB 9).history) := by
  have ha := c1_conflict_no_commit.1 mergeFileModel vaultB 9
    ⟨"modify", "a.md", some 0, none, some "mine", some 1⟩ 0 0
    ⟨0, "a.md", some (computeHash "world"), some 2, 1, 3, none⟩
    "mine" "world" "hello" rfl (by decide) rfl rfl rfl (by decide) rfl (by decide) rfl
    (by decide)
  have hb := c1_conflict_no_commit.2 mergeFileModel vaultB 9 "a.md" (some "mine") (some 1)
    (by decide)
  exact ⟨⟨ha.2.2.2.1, ha.2.2.1⟩, hb.1, hb.2.2.2.1⟩


/-! ## C2 — atomic batches stop at the first failure -/

theorem processCreate_index (st : VaultState) (now : Nat) (op : SyncOperation)
    (i : Nat) : (processCreate st now op i).1.index = i := by
  simp only [processCreate]
  repeat' split
  all_goals rfl

theorem processModify_index (m : MergeFn) (st : VaultState) (now : Nat)
    (op : SyncOperation) (i : Nat) : (processModify m st now op i).1.index = i := by
  simp only [processModify]
  repeat' split
  all_goals rfl

theorem processRename_index (st : VaultState) (now : Nat) (op : SyncOperation)
    (i : Nat) : (processRename st now op i).1.index = i := by
  simp only [processRename]
  repeat' split
  all_goals rfl

theorem processDelete_index (st : VaultState) (now : Nat) (op : SyncOperation)
    (i : Nat) : (processDelete st now op i).1.index = i := by
  simp only [processDelete]
  repeat' split
  all_goals rfl

theorem processOperation_index (m : MergeFn) (st : VaultState) (now : Nat)
    (op : SyncOperation) (i : Nat) : (processOperation m st now op i).1.index = i := by
  simp only [processOperation]
  repeat' split
  · exact processCreate_index ..
  · exact processModify_index ..
  · exact processRename_index ..
  · exact processDelete_index ..
  · rfl

/-- The batch contract of the atomic v2 endpoint, over its raw
`(status, response, state)` output: the status is 400 or 200; a 400 carries
the pre-batch head, a non-empty results list indexed `0..k`, all results but
the last successful and the last failed; a 200 carries one successful result
per operation. -/
def BatchOutcome (start : Option CommitId) (nops : Nat)
    (out : Nat × V2Response × VaultState) : Prop :=
  (out.1 = 400 ∨ out.1 = 200) ∧
  (out.1 = 400 →
    out.2.1.head_commit = start ∧
    out.2.1.results ≠ [] ∧
    out.2.1.results.map (·.index) = List.range out.2.1.results.length ∧
    (∀ r ∈ out.2.1.results.dropLast, r.success = true) ∧
    (∃ fr, out.2.1.results.getLast? = some fr ∧ fr.success = false)) ∧
  (out.1 = 200 →
    out.2.1.results.length = nops ∧ ∀ r ∈ out.2.1.results, r.success = true)

theorem v2Loop_spec (m : MergeFn) (start : Option CommitId) (now : Nat) :
    ∀ (l : List SyncOperation) (st : VaultState) (acc : List OperationResult) (i : Nat),
      i = acc.length →
      (∀ r ∈ acc, r.success = true) →
      acc.map (·.index) = List.range acc.length →
      BatchOutcome start (acc.length + l.length) (v2Loop m true start now l i acc st) := by
  intro l
  induction l with
  | nil =>
    intro st acc i hi hsucc hmap
    simp only [v2Loop]
    refine ⟨Or.inr rfl, ?_, ?_⟩
    · intro h
      exact absurd h (by simp)
    · intro _
      exact ⟨by simp, hsucc⟩
  | cons op rest ih =>
    intro st acc i hi hsucc hmap
    simp only [v2Loop]
    split
    · rw [if_pos trivial]
      refine ⟨Or.inl rfl, ?_, ?_⟩
      · intro _
        refine ⟨rfl, by simp, ?_, ?_, ?_⟩
        · dsimp only
          rw [List.map_append, hmap, List.length_append]
          simp [hi, List.range_succ, failResult]
        · dsimp only
          rw [List.dropLast_concat]
          exact hsucc
        · exact ⟨_, List.getLast?_concat _, rfl⟩
      · intro h
        exact absurd h (by simp)
    · by_cases hs : (processOperation m st now op i).1.success = true
      · rw [if_neg (by rw [hs]; simp)]
        have harith : acc.length + (op :: rest).length
            = (acc ++ [(processOperation m st now op i).1]).length + rest.length := by
          simp
          omega
        rw [harith]
        refine ih _ _ _ (by simp [hi]) ?_ ?_
        · intro r hr
          rcases List.mem_append.mp hr with hl | hr2
          · exact hsucc r hl
          · rcases List.mem_singleton.mp hr2 with rfl
            exact hs
        · rw [List.map_append, hmap, List.length_append]
          simp [hi, List.range_succ, processOperation_index]
      · have hs' : (processOperation m st now op i).1.success = false :=
          Bool.eq_false_iff.mpr hs
        rw [if_pos (by rw [hs']; rfl)]
        refine ⟨Or.inl rfl, ?_, ?_⟩
        · intro _
          refine ⟨rfl, by simp, ?_, ?_, ?_⟩
          · dsimp only
            rw [List.map_append, hmap, List.length_append]
            simp [hi, List.range_succ, processOperation_index]
          · dsimp only
            rw [List.dropLast_concat]
            exact hsucc
          · exact ⟨_, List.getLast?_concat _, hs'⟩
        · intro h
          exact absurd h (by simp)

/-- C2: in an atomic batch, processing stops at the first failing operation
`i`: the HTTP status is 400, the results list holds exactly the per-operation
results for indices `0..i` (the earlier ones successful, the last failed),
and `head_commit` is the vault head recorded before the batch (`start_commit`)
— regardless of commits earlier operations created. When no operation fails,
the status is 200 with one successful result per operation. -/
theorem c2_atomic_batch (m : MergeFn) (st : VaultState) (now : Nat)
    (ops : List SyncOperation) (hne : ops ≠ []) :
    BatchOutcome (getHeadCommit (initVaultGit st now)) ops.length
      (syncV2 m st now ops true) := by
  simp only [syncV2]
  rw [if_neg (by simpa [List.isEmpty_iff] using hne)]
  have h := v2Loop_spec m (getHeadCommit (initVaultGit st now)) now ops
    (initVaultGit st now) [] 0 rfl (by simp) rfl
  simpa using h

theorem c2_atomic_batch_witness :
    BatchOutcome (getHeadCommit (initVaultGit emptyVault 9)) 2
      (syncV2 mergeFileModel emptyVault 9
        [⟨"create", "a.md", none, none, some "x", none⟩,
         ⟨"modify", "b.md", some 77, none, some "y", none⟩] true) :=
  c2_atomic_batch mergeFileModel emptyVault 9
    [⟨"create", "a.md", none, none, some "x", none⟩,
     ⟨"modify", "b.md", some 77, none, some "y", none⟩] (by decide)


/-! ## C7 — a soft-deleted file id is never revived -/

/-- The "dead identity" invariant: ids in the store are below the UUID
counter, some row carries `fid`, and every row carrying `fid` is
soft-deleted. -/
def DeadId (fid : FileId) (st : VaultState) : Prop :=
  (∀ r ∈ st.files, r.file_id < st.nextId) ∧
  (∃ r ∈ st.files, r.file_id = fid) ∧
  (∀ r ∈ st.files, r.file_id = fid → r.deleted_at ≠ none)

theorem deadId_of_eq (fid : FileId) (st st' : VaultState)
    (hf : st'.files = st.files) (hn : st'.nextId = st.nextId)
    (h : DeadId fid st) : DeadId fid st' := by
  simp only [DeadId, hf, hn]
  exact h

theorem deadId_initVaultGit (fid : FileId) (st : VaultState) (now : Nat)
    (h : DeadId fid st) : DeadId fid (initVaultGit st now) :=
  deadId_of_eq fid st _ (initVaultGit_files st now) (initVaultGit_nextId st now) h

theorem deadId_commitFile (fid : FileId) (st : VaultState) (now : Nat)
    (p : String) (c : Content) (h : DeadId fid st) :
    DeadId fid ((commitFile st now p c).2) :=
  deadId_of_eq fid st _ (commitFile_files st now p c) (commitFile_nextId st now p c) h

theorem deadId_deleteFile (fid : FileId) (st : VaultState) (now : Nat)
    (p : String) (h : DeadId fid st) : DeadId fid ((deleteFile st now p).2) :=
  deadId_of_eq fid st _ (deleteFile_files st now p) (deleteFile_nextId st now p) h

theorem amendHead_nextId (st : VaultState) (now : Nat) (p : String) (c : Content) :
    (amendHead st now p c).nextId = st.nextId := by
  simp only [amendHead]
  split <;> rfl

theorem deadId_amendHead (fid : FileId) (st : VaultState) (now : Nat)
    (p : String) (c : Content) (h : DeadId fid st) :
    DeadId fid (amendHead st now p c) :=
  deadId_of_eq fid st _ (amendHead_files st now p c) (amendHead_nextId st now p c) h

theorem deadId_commitPathFromWorkdir (fid : FileId) (st : VaultState) (now : Nat)
    (p : String) (h : DeadId fid st) : DeadId fid (commitPathFromWorkdir st now p) :=
  deadId_of_eq fid st _ (commitPathFromWorkdir_files st now p)
    (commitPathFromWorkdir_nextId st now p) h

theorem deadId_updateGitManifest (fid : FileId) (st : VaultState) (now : Nat)
    (h : DeadId fid st) : DeadId fid (updateGitManifest st now) :=
  deadId_of_eq fid st _ rfl rfl h

theorem deadId_recordPathChange (fid : FileId) (st : VaultState) (now : Nat)
    (f : FileId) (o n : String) (h : DeadId fid st) :
    DeadId fid (recordPathChange st now f o n) :=
  deadId_of_eq fid st _ rfl rfl h

/-- The list-level argument shared by the row-rewriting store updates: a map
that keeps each row's id and never un-deletes preserves the invariant. -/
theorem deadId_map_core (fid : FileId) (l : List FileMeta) (n : Nat)
    (g : FileMeta → FileMeta)
    (hid : ∀ r, (g r).file_id = r.file_id)
    (hdel : ∀ r, r.deleted_at ≠ none → (g r).deleted_at ≠ none)
    (h1 : ∀ r ∈ l, r.file_id < n)
    (h2 : ∃ r ∈ l, r.file_id = fid)
    (h3 : ∀ r ∈ l, r.file_id = fid → r.deleted_at ≠ none) :
    (∀ r ∈ l.map g, r.file_id < n) ∧ (∃ r ∈ l.map g, r.file_id = fid) ∧
    (∀ r ∈ l.map g, r.file_id = fid → r.deleted_at ≠ none) := by
  refine ⟨?_, ?_, ?_⟩
  · intro r hr
    rcases List.mem_map.mp hr with ⟨r0, hr0, rfl⟩
    rw [hid]
    exact h1 r0 hr0
  · obtain ⟨r0, hr0, hf0⟩ := h2
    exact ⟨g r0, List.mem_map_of_mem g hr0, by rw [hid]; exact hf0⟩
  · intro r hr hf
    rcases List.mem_map.mp hr with ⟨r0, hr0, rfl⟩
    rw [hid] at hf
    exact hdel r0 (h3 r0 hr0 hf)

theorem deadId_createFileRecord (fid : FileId) (st : VaultState) (now : Nat)
    (p : String) (h : Option Hash) (c : Option CommitId) (hd : DeadId fid st) :
    DeadId fid ((createFileRecord st now p h c).2) := by
  obtain ⟨h1, h2, h3⟩ := hd
  simp only [createFileRecord, updateGitManifest, DeadId]
  refine ⟨?_, ?_, ?_⟩
  · intro r hr
    rcases List.mem_append.mp hr with hl | hr2
    · exact Nat.lt_succ_of_lt (h1 r hl)
    · rcases List.mem_singleton.mp hr2 with rfl
      exact Nat.lt_succ_self _
  · obtain ⟨r0, hr0, hf0⟩ := h2
    exact ⟨r0, List.mem_append_left _ hr0, hf0⟩
  · intro r hr hf
    rcases List.mem_append.mp hr with hl | hr2
    · exact h3 r hl hf
    · rcases List.mem_singleton.mp hr2 with rfl
      exfalso
      obtain ⟨r0, hr0, hf0⟩ := h2
      have hlt := h1 r0 hr0
      rw [hf0] at hlt
      have hfe : st.nextId = fid := hf
      exact absurd hfe (Nat.ne_of_gt hlt)

theorem deadId_updateFileRecord (fid : FileId) (st : VaultState) (now : Nat)
    (f : FileId) (np : Option String) (nh : Option (Option Hash))
    (nc : Option (Option CommitId)) (hd : DeadId fid st) :
    DeadId fid ((updateFileRecord st now f np nh nc).2) := by
  obtain ⟨h1, h2, h3⟩ := hd
  simp only [updateFileRecord]
  split
  · dsimp only
    have hmap := deadId_map_core fid st.files st.nextId
      (fun r => if r.file_id == f then
        { r with
          current_path := np.getD r.current_path
          content_hash := nh.getD r.content_hash
          git_commit := nc.getD r.git_commit
          updated_at := now }
        else r)
      (fun r => by dsimp only; split <;> rfl)
      (fun r hr => by dsimp only; split <;> simpa)
      h1 h2 h3
    split
    · exact ⟨hmap.1, hmap.2.1, hmap.2.2⟩
    · exact ⟨hmap.1, hmap.2.1, hmap.2.2⟩
  · exact ⟨h1, h2, h3⟩

theorem deadId_softDeleteFile (fid : FileId) (st : VaultState) (now : Nat)
    (f : FileId) (hd : DeadId fid st) : DeadId fid ((softDeleteFile st now f).2) := by
  obtain ⟨h1, h2, h3⟩ := hd
  simp only [softDeleteFile]
  have hdelg : ∀ r : FileMeta, r.deleted_at ≠ none →
      (if r.file_id == f then
        ({ r with deleted_at := some now, updated_at := now } : FileMeta)
       else r).deleted_at ≠ none := by
    intro r hr
    split
    · simp
    · exact hr
  split
  · dsimp only
    have hmap := deadId_map_core fid st.files st.nextId
      (fun r => if r.file_id == f then
        { r with deleted_at := some now, updated_at := now } else r)
      (fun r => by dsimp only; split <;> rfl)
      hdelg
      h1 h2 h3
    exact ⟨hmap.1, hmap.2.1, hmap.2.2⟩
  · exact ⟨h1, h2, h3⟩

theorem deadId_ensureFileId (fid : FileId) (st : VaultState) (now : Nat)
    (p : String) (h : Option Hash) (c : Option CommitId) (hd : DeadId fid st) :
    DeadId fid ((ensureFileId st now p h c).2) := by
  simp only [ensureFileId]
  split
  · split
    · exact deadId_updateFileRecord fid st now _ none (some h) (some c) hd
    · exact hd
  · exact deadId_createFileRecord fid st now p h c hd

/-- The id `ensureFileId` hands out is never a dead one: it is either an
active row's id or a fresh counter value. -/
theorem ensureFileId_ne_dead (fid : FileId) (st : VaultState) (now : Nat)
    (p : String) (h : Option Hash) (c : Option CommitId) (hd : DeadId fid st) :
    (ensureFileId st now p h c).1 ≠ fid := by
  obtain ⟨h1, h2, h3⟩ := hd
  simp only [ensureFileId]
  rcases Option.eq_none_or_eq_some (getFileByPath st p) with hf | ⟨r, hf⟩
  · rw [hf]
    dsimp only
    intro he
    obtain ⟨r0, hr0, hf0⟩ := h2
    have hlt := h1 r0 hr0
    rw [hf0] at hlt
    have hfe : st.nextId = fid := he
    exact absurd hfe (Nat.ne_of_gt hlt)
  · rw [hf]
    dsimp only
    have hmem := List.mem_of_find?_eq_some hf
    have hpred := List.find?_some hf
    simp only [Bool.and_eq_true, beq_iff_eq, Option.isNone_iff_eq_none] at hpred
    have hne : r.file_id ≠ fid := by
      intro he
      exact h3 r hmem he hpred.2
    split <;> exact hne

theorem deadId_getFileRecord (fid : FileId) (st : VaultState) (now : Nat)
    (p : String) (hd : DeadId fid st) : DeadId fid ((getFileRecord st now p).2) := by
  simp only [getFileRecord]
  split
  · exact hd
  · exact deadId_ensureFileId _ _ _ _ _ _ hd


theorem deadId_bootstrapLoop (fid : FileId) (now : Nat) :
    ∀ (l : List String) (st : VaultState), DeadId fid st →
      DeadId fid (bootstrapLoop now l st) := by
  intro l
  induction l with
  | nil => intro st hd; exact hd
  | cons p rest ih =>
    intro st hd
    rw [bootstrapLoop]
    cases lookupA st.workdir p with
    | none => exact ih st hd
    | some c => exact ih _ (deadId_ensureFileId _ _ _ _ _ _ hd)

theorem deadId_bootstrapVaultMetadata (fid : FileId) (st : VaultState) (now : Nat)
    (hd : DeadId fid st) : DeadId fid (bootstrapVaultMetadata st now) := by
  simp only [bootstrapVaultMetadata]
  exact deadId_commitPathFromWorkdir _ _ _ _
    (deadId_updateGitManifest _ _ _ (deadId_bootstrapLoop fid now _ st hd))

/-- The manifest loop: the invariant is preserved and no emitted row beyond
the accumulator carries a dead id. -/
theorem manifestLoop_ids (fid : FileId) (now : Nat) :
    ∀ (l : List String) (st : VaultState) (acc : List FileRecord), DeadId fid st →
      (∀ r ∈ acc, r.file_id ≠ fid) →
      (∀ r ∈ (manifestLoop now l st acc).1, r.file_id ≠ fid) ∧
        DeadId fid (manifestLoop now l st acc).2 := by
  intro l
  induction l with
  | nil => intro st acc hd hacc; exact ⟨hacc, hd⟩
  | cons p rest ih =>
    intro st acc hd hacc
    rw [manifestLoop]
    cases lookupA st.workdir p with
    | none => exact ih st acc hd hacc
    | some c =>
      refine ih _ _ (deadId_ensureFileId _ _ _ _ _ _ hd) ?_
      intro r hr
      rcases List.mem_append.mp hr with hl | hr2
      · exact hacc r hl
      · rcases List.mem_singleton.mp hr2 with rfl
        exact ensureFileId_ne_dead fid st now p _ _ hd

theorem deadId_getManifest (fid : FileId) (st : VaultState) (now : Nat)
    (hd : DeadId fid st) :
    (∀ r ∈ (getManifest st now).1, r.file_id ≠ fid) ∧
      DeadId fid ((getManifest st now).2) := by
  simp only [getManifest]
  have hd1 := deadId_initVaultGit fid st now hd
  cases getHeadCommit (initVaultGit st now) with
  | none => exact ⟨by intro r hr; simp at hr, hd1⟩
  | some c =>
    dsimp only
    split
    · exact manifestLoop_ids fid now _ _ []
        (deadId_bootstrapVaultMetadata fid _ now hd1) (by intro r hr; simp at hr)
    · exact manifestLoop_ids fid now _ _ [] hd1 (by intro r hr; simp at hr)

theorem deadId_getChangesSince (fid : FileId) (st : VaultState) (now : Nat)
    (since : Option CommitId) (hd : DeadId fid st) :
    DeadId fid ((getChangesSince st now since).2) := by
  simp only [getChangesSince]
  have hd1 := deadId_initVaultGit fid st now hd
  cases getHeadCommit (initVaultGit st now) with
  | none => exact hd1
  | some hc =>
    cases since with
    | none => exact hd1
    | some s =>
      dsimp only
      split
      · exact hd1
      · split
        · exact hd1
        · exact (deadId_getManifest fid _ now hd1).2

theorem deadId_detectRename (fid : FileId) (st : VaultState) (now : Nat)
    (missing : String) (h : Hash) (fid? : Option FileId) (hd : DeadId fid st) :
    DeadId fid ((detectRename st now missing h fid?).2) := by
  simp only [detectRename]
  repeat' split
  all_goals first
    | exact hd
    | exact (deadId_getManifest fid _ now hd).2

theorem deadId_renameFile (fid : FileId) (st : VaultState) (now : Nat)
    (f : FileId) (oldP newP : String) (content : Option Content)
    (hd : DeadId fid st) : DeadId fid ((renameFile st now f oldP newP content).2) := by
  simp only [renameFile]
  have hd1 := deadId_initVaultGit fid st now hd
  repeat' split
  all_goals first
    | exact hd1
    | exact deadId_amendHead _ _ _ _ _
        (deadId_updateGitManifest _ _ _
          (deadId_updateFileRecord _ _ _ _ _ _ _
            (deadId_recordPathChange _ _ _ _ _ _ hd1)))

theorem deadId_processCreate (fid : FileId) (st : VaultState) (now : Nat)
    (op : SyncOperation) (i : Nat) (hd : DeadId fid st) :
    DeadId fid ((processCreate st now op i).2) := by
  simp only [processCreate]
  repeat' split
  all_goals first
    | exact hd
    | exact deadId_ensureFileId _ _ _ _ _ _ (deadId_commitFile _ _ _ _ _ hd)

theorem deadId_processModify (fid : FileId) (m : MergeFn) (st : VaultState)
    (now : Nat) (op : SyncOperation) (i : Nat) (hd : DeadId fid st) :
    DeadId fid ((processModify m st now op i).2) := by
  simp only [processModify]
  repeat' split
  all_goals first
    | exact hd
    | exact deadId_ensureFileId _ _ _ _ _ _ (deadId_commitFile _ _ _ _ _ hd)
    | exact deadId_getFileRecord _ _ _ _ hd
    | exact deadId_ensureFileId _ _ _ _ _ _ hd

theorem deadId_processRename (fid : FileId) (st : VaultState) (now : Nat)
    (op : SyncOperation) (i : Nat) (hd : DeadId fid st) :
    DeadId fid ((processRename st now op i).2) := by
  simp only [processRename]
  repeat' split
  all_goals first
    | exact hd
    | exact deadId_renameFile _ _ _ _ _ _ _ hd
    | exact deadId_getFileRecord _ _ _ _ (deadId_renameFile _ _ _ _ _ _ _ hd)

theorem deadId_processDelete (fid : FileId) (st : VaultState) (now : Nat)
    (op : SyncOperation) (i : Nat) (hd : DeadId fid st) :
    DeadId fid ((processDelete st now op i).2) := by
  simp only [processDelete]
  repeat' split
  all_goals first
    | exact hd
    | exact deadId_deleteFile _ _ _ _ (deadId_softDeleteFile _ _ _ _ hd)

theorem deadId_processOperation (fid : FileId) (m : MergeFn) (st : VaultState)
    (now : Nat) (op : SyncOperation) (i : Nat) (hd : DeadId fid st) :
    DeadId fid ((processOperation m st now op i).2) := by
  simp only [processOperation]
  have hd1 := deadId_initVaultGit fid st now hd
  repeat' split
  · exact deadId_processCreate _ _ _ _ _ hd1
  · exact deadId_processModify _ _ _ _ _ _ hd1
  · exact deadId_processRename _ _ _ _ _ hd1
  · exact deadId_processDelete _ _ _ _ _ hd1
  · exact hd1

theorem deadId_v2Loop (fid : FileId) (m : MergeFn) (atomic : Bool)
    (start : Option CommitId) (now : Nat) :
    ∀ (l : List SyncOperation) (i : Nat) (acc : List OperationResult)
      (st : VaultState), DeadId fid st →
      DeadId fid ((v2Loop m atomic start now l i acc st).2.2) := by
  intro l
  induction l with
  | nil => intro i acc st hd; exact hd
  | cons op rest ih =>
    intro i acc st hd
    rw [v2Loop]
    split
    · dsimp only
      split
      · exact hd
      · exact ih _ _ _ hd
    · dsimp only
      split
      · exact deadId_processOperation fid m st now op i hd
      · exact ih _ _ _ (deadId_processOperation fid m st now op i hd)

theorem deadId_syncV2 (fid : FileId) (m : MergeFn) (st : VaultState) (now : Nat)
    (ops : List SyncOperation) (atomic : Bool) (hd : DeadId fid st) :
    DeadId fid ((syncV2 m st now ops atomic).2.2) := by
  simp only [syncV2]
  split
  · exact hd
  · exact deadId_v2Loop fid m atomic _ now ops 0 [] _
      (deadId_initVaultGit fid st now hd)

theorem deadId_syncEndpoint (fid : FileId) (m : MergeFn) (st : VaultState)
    (now : Nat) (p : String) (content : Option Content) (base : Option CommitId)
    (hd : DeadId fid st) : DeadId fid ((syncEndpoint m st now p content base).2.2) := by
  simp only [syncEndpoint]
  have hd1 := deadId_initVaultGit fid st now hd
  repeat' split
  all_goals first
    | exact hd
    | exact hd1
    | exact deadId_ensureFileId _ _ _ _ _ _ (deadId_commitFile _ _ _ _ _ hd1)
    | exact deadId_ensureFileId _ _ _ _ _ _ (deadId_getFileRecord _ _ _ _ hd1)
    | exact deadId_ensureFileId _ _ _ _ _ _ hd1

theorem deadId_deleteEndpoint (fid : FileId) (st : VaultState) (now : Nat)
    (p : String) (hd : DeadId fid st) : DeadId fid ((deleteEndpoint st now p).2) := by
  simp only [deleteEndpoint]
  repeat' split
  all_goals first
    | exact deadId_deleteFile _ _ _ _ hd
    | exact deadId_deleteFile _ _ _ _ (deadId_softDeleteFile _ _ _ _ hd)

theorem deadId_renameEndpoint (fid : FileId) (st : VaultState) (now : Nat)
    (f : Option FileId) (oldP newP : String) (content : Option Content)
    (hd : DeadId fid st) :
    DeadId fid ((renameEndpoint st now f oldP newP content).2) := by
  simp only [renameEndpoint]
  repeat' split
  all_goals first
    | exact hd
    | exact deadId_renameFile _ _ _ _ _ _ _ hd
    | exact deadId_getFileRecord _ _ _ _ (deadId_renameFile _ _ _ _ _ _ _ hd)

theorem deadId_handleYjsUpdate (fid : FileId) (st : VaultState) (now : Nat)
    (f : FileId) (text : Content) (hd : DeadId fid st) :
    DeadId fid ((handleYjsUpdate st now f text).2) := by
  simp only [handleYjsUpdate]
  split
  · exact hd
  · exact deadId_commitFile _ _ _ _ _ hd

theorem deadId_applyOp (fid : FileId) (m : MergeFn) (st : VaultState)
    (op : ServerOp) (hd : DeadId fid st) : DeadId fid (applyOp m st op) := by
  cases op with
  | sync now p content base => exact deadId_syncEndpoint fid m st now p content base hd
  | batch now ops atomic => exact deadId_syncV2 fid m st now ops atomic hd
  | deletePath now p => exact deadId_deleteEndpoint fid st now p hd
  | rename now f oldP newP content => exact deadId_renameEndpoint fid st now f oldP newP content hd
  | detect now missing h fid? => exact deadId_detectRename fid st now missing h fid? hd
  | manifest now => exact (deadId_getManifest fid st now hd).2
  | status now since => exact deadId_getChangesSince fid st now since hd
  | yjsUpdate now f text => exact deadId_handleYjsUpdate fid st now f text hd

theorem deadId_applyOps (fid : FileId) (m : MergeFn) :
    ∀ (ops : List ServerOp) (st : VaultState), DeadId fid st →
      DeadId fid (applyOps m ops st) := by
  intro ops
  induction ops with
  | nil => intro st hd; exact hd
  | cons op rest ih =>
    intro st hd
    exact ih _ (deadId_applyOp fid m st op hd)

/-- C7: once a file's identity record is soft-deleted, no trace of modelled
server events — single-file syncs, batches, deletes, renames, rename
detections, manifest and status queries, or inbound real-time yjs updates for
that very file id — ever revives it: every row for that id stays
soft-deleted, the id appears in no later manifest row, and any later
`ensureFileId` (in particular, a creation at the file's old path) hands out a
different id. -/
theorem c7_deleted_id_stays_dead (m : MergeFn) (ops : List ServerOp)
    (st : VaultState) (fid : FileId) (hd : DeadId fid st) :
    DeadId fid (applyOps m ops st) ∧
    (∀ now rec, rec ∈ (getManifest (applyOps m ops st) now).1 → rec.file_id ≠ fid) ∧
    (∀ now p h c, (ensureFileId (applyOps m ops st) now p h c).1 ≠ fid) := by
  have hfinal := deadId_applyOps fid m ops st hd
  refine ⟨hfinal, ?_, ?_⟩
  · intro now rec hrec
    exact (deadId_getManifest fid _ now hfinal).1 rec hrec
  · intro now p h c
    exact ensureFileId_ne_dead fid _ now p h c hfinal

theorem c7_deleted_id_stays_dead_witness :
    DeadId 0 (applyOps mergeFileModel
      [ServerOp.yjsUpdate 11 0 "ghost text",
       ServerOp.sync 12 "a.md" (some "fresh") none,
       ServerOp.manifest 13] deletedRowVault) ∧
    (ensureFileId (applyOps mergeFileModel
      [ServerOp.yjsUpdate 11 0 "ghost text",
       ServerOp.sync 12 "a.md" (some "fresh") none,
       ServerOp.manifest 13] deletedRowVault) 14 "a.md" none none).1 ≠ 0 := by
  have h := c7_deleted_id_stays_dead mergeFileModel
    [ServerOp.yjsUpdate 11 0 "ghost text",
     ServerOp.sync 12 "a.md" (some "fresh") none,
     ServerOp.manifest 13] deletedRowVault 0
    ⟨by decide, ⟨⟨0, "a.md", none, none, 0, 3, some 3⟩, List.Mem.head _, rfl⟩, by decide⟩
  exact ⟨h.1, h.2.2 14 "a.md" none none⟩

end Scion

